import Mathlib

/-!
Verification development for the infection-cluster-detection core
(`src/modules/data_analysis.py`).

Calendar dates are embedded as `Int` (a day count); `timedelta(days = n)`
becomes `+ n`, and `(d1 - d2).days` becomes `d1 - d2`.  Python `str` is
`String`, Python lists are `List`, Python sets are `List`s kept free of
duplicates by an explicit membership test on insertion, and Python dicts
(which preserve key insertion order) are association lists.  Fallible
library calls (CSV parsing, date parsing, dict key lookup) are embedded
with `Except` / `Option`.
-/

deriving instance DecidableEq for Except

namespace ICD

/-! ### Generic helpers (Python dict / set / string primitives) -/

/-- Membership-checking set insertion: Python `set.add` on a set
materialized as a duplicate-free list (first-occurrence order). -/
def setAdd (l : List String) (x : String) : List String :=
  if x ∈ l then l else l ++ [x]

/-- Duplicate removal keeping the first occurrence of each element:
the key order of a Python dict or set built by successive insertions. -/
def dedupFirst {α : Type} [DecidableEq α] : List α → List α
  | [] => []
  | x :: xs => x :: (dedupFirst xs).filter (fun y => y ≠ x)

/-- `updateAssoc m k v` models `defaultdict(list)`: append `v` to the
bucket of key `k`, creating the bucket at the end on first use
(Python dicts preserve key insertion order). -/
def updateAssoc {κ α : Type} [DecidableEq κ] :
    List (κ × List α) → κ → α → List (κ × List α)
  | [], k, v => [(k, [v])]
  | (k', vs) :: rest, k, v =>
    if k' = k then (k', vs ++ [v]) :: rest else (k', vs) :: updateAssoc rest k v

/-- Bucket lookup in an association list, empty when absent. -/
def lookupAssoc {κ α : Type} [DecidableEq κ] :
    List (κ × List α) → κ → List α
  | [], _ => []
  | (k', vs) :: rest, k => if k' = k then vs else lookupAssoc rest k

/-- Python `min` over a nonempty list (the `[]` default is dead code:
every caller passes a nonempty list). -/
def minDate : List Int → Int
  | [] => 0
  | x :: xs => xs.foldl min x

/-- Python `max` over a nonempty list (the `[]` default is dead code). -/
def maxDate : List Int → Int
  | [] => 0
  | x :: xs => xs.foldl max x

/-- `f"{n:03d}"`: decimal rendering left-padded with zeros to width 3. -/
def pad3 (n : Nat) : String :=
  if n < 10 then "00" ++ toString n
  else if n < 100 then "0" ++ toString n
  else toString n

/-- `date.strftime('%Y-%m-%d')` / `date.isoformat()`: an injective
rendering of the embedded day count. -/
def dateISO (d : Int) : String := toString d

/-- One uppercase hexadecimal digit. -/
def hexDigit (n : Nat) : Char :=
  if n < 10 then Char.ofNat (48 + n) else Char.ofNat (55 + n)

/-- Stand-in for `hashlib.md5(s.encode()).hexdigest()[:4].upper()`:
a deterministic four-hex-character digest of the input string (the
hash itself is an external library primitive; all that the code relies
on is that it is a pure function of the string). -/
def hash4 (s : String) : String :=
  let h := s.toList.foldl (fun a c => (a * 131 + c.toNat) % 65536) 7
  String.mk [hexDigit (h / 4096), hexDigit (h / 256 % 16),
             hexDigit (h / 16 % 16), hexDigit (h % 16)]

/-- Python `str.lower` (ASCII case folding, character by character). -/
def strLower (s : String) : String := String.mk (s.toList.map Char.toLower)

/-- Sorted list of strings: Python `sorted` on a set of strings. -/
def sortedStrings (l : List String) : List String :=
  List.insertionSort (fun a b => a ≤ b) l

/-- `needle in hay` on strings (substring containment), via character
lists. -/
def charsStartWith : List Char → List Char → Bool
  | _, [] => true
  | [], _ :: _ => false
  | h :: hs, n :: ns => h = n && charsStartWith hs ns

/-- Auxiliary scan for `containsSub`. -/
def charsContain : List Char → List Char → Bool
  | hay, needle =>
    match hay with
    | [] => needle.isEmpty
    | _ :: rest => charsStartWith hay needle || charsContain rest needle

/-- Python `needle in hay` for strings. -/
def containsSub (hay needle : String) : Bool :=
  charsContain hay.toList needle.toList

/-! ### Data model (`InfectionEpisode`, `ContactEdge`, `EpisodeCluster`) -/

/-- `InfectionEpisode` — one continuous infectious period for one
patient/pathogen.  `positive_tests` keeps the collection dates of the
contributing positive tests (the only field of the test records the
algorithm reads). -/
structure InfectionEpisode where
  episode_id : String
  patient_id : String
  infection_type : String
  episode_number : Nat
  episode_start : Int
  episode_end : Int
  positive_tests : List Int
deriving DecidableEq, Repr

/-- `InfectionEpisode.overlaps_with`. -/
def InfectionEpisode.overlaps_with (a b : InfectionEpisode) : Bool :=
  !(decide (a.episode_end < b.episode_start) ||
    decide (b.episode_end < a.episode_start))

/-- `ContactEdge` — evidence of same-day same-location co-presence of two
episodes. -/
structure ContactEdge where
  episode_a : String
  episode_b : String
  contact_date : Int
  location : String
  contact_type : String := "same_location_same_day"
  weight : ℚ := 1
deriving DecidableEq, Repr

/-- `EpisodeCluster` — a connected component of episodes of one pathogen.
`unique_patients` and `locations` are Python sets, materialized as
duplicate-free lists. -/
structure EpisodeCluster where
  cluster_id : String
  infection_type : String
  episodes : List InfectionEpisode
  unique_patients : List String
  locations : List String
  date_range : Int × Int
  contact_events : List ContactEdge
deriving DecidableEq, Repr

def EpisodeCluster.patient_count (c : EpisodeCluster) : Nat :=
  c.unique_patients.length

def EpisodeCluster.episode_count (c : EpisodeCluster) : Nat :=
  c.episodes.length

def EpisodeCluster.duration_days (c : EpisodeCluster) : Int :=
  c.date_range.2 - c.date_range.1

/-- `risk_score = len(contact_events) / max(1, patient_count)`. -/
def EpisodeCluster.risk_score (c : EpisodeCluster) : ℚ :=
  (c.contact_events.length : ℚ) / max 1 (c.patient_count : ℚ)

/-- `EpisodeCluster.get_display_name`. -/
def EpisodeCluster.get_display_name (c : EpisodeCluster) : String :=
  let base := String.intercalate "," ((sortedStrings c.locations).take 3)
  let locations_str :=
    if 3 < c.locations.length then
      base ++ " (+" ++ toString (c.locations.length - 3) ++ ")"
    else base
  let date_str := dateISO c.date_range.1 ++ " → " ++ dateISO c.date_range.2
  c.infection_type ++ " — Wards " ++ locations_str ++ " — " ++ date_str ++
    " — " ++ toString c.unique_patients.length ++ " patients"

/-- `EpisodeCluster.get_technical_id`: pathogen lower-cased, ISO date of
the earliest window start, digest of the sorted concatenated locations. -/
def EpisodeCluster.get_technical_id (c : EpisodeCluster) : String :=
  let min_date_str := dateISO c.date_range.1
  let locations_hash := hash4 (String.join (sortedStrings c.locations))
  "cluster_" ++ strLower c.infection_type ++ "_" ++ min_date_str ++ "_" ++
    locations_hash

/-! ### Episode Builder (`create_episodes_for_patient`) -/

/-- The grouping walk of `create_episodes_for_patient`: `current_group`
starts at the first test, each later test joins the current group when
its gap to the group's last element is ≤ 28 days and otherwise opens a
new group. -/
def splitGapsAux (prev : Int) (cur : List Int) : List Int → List (List Int)
  | [] => [cur]
  | t :: rest =>
    if t - prev ≤ 28 then splitGapsAux t (cur ++ [t]) rest
    else cur :: splitGapsAux t [t] rest

/-- `episode_groups` of `create_episodes_for_patient`. -/
def splitGaps : List Int → List (List Int)
  | [] => []
  | t :: rest => splitGapsAux t [t] rest

/-- `create_episodes_for_patient`: split the test dates into gap-bounded
groups, then build one episode per group with the window
`[min − 14, max + 14]` and a 1-based sequence number. -/
def create_episodes_for_patient (patient_id infection : String)
    (tests : List Int) : List InfectionEpisode :=
  (List.enumFrom 1 (splitGaps tests)).map (fun p =>
    { episode_id := patient_id ++ "_" ++ infection ++ "_EP" ++ pad3 p.1
      patient_id := patient_id
      infection_type := infection
      episode_number := p.1
      episode_start := minDate p.2 - 14
      episode_end := maxDate p.2 + 14
      positive_tests := p.2 })

/-- Two consecutive tests stay in the same episode: gap of at most 28
days. -/
def sameEpisodeStep (a b : Int) : Prop := b - a ≤ 28

/-- Adjacent test groups of two consecutive episodes are separated by a
gap of more than 28 days (last test of the earlier group to first test
of the later group). -/
def episodeBreak (g1 g2 : List Int) : Prop :=
  ∀ a ∈ g1.getLast?, ∀ b ∈ g2.head?, 28 < b - a

/-! #### Episode Builder lemmas -/

lemma foldl_min_le_init (as : List Int) : ∀ a : Int, as.foldl min a ≤ a := by
  induction as with
  | nil => intro a; exact le_rfl
  | cons b bs ih =>
    intro a
    exact le_trans (ih (min a b)) (min_le_left a b)

lemma foldl_max_init_le (as : List Int) : ∀ a : Int, a ≤ as.foldl max a := by
  induction as with
  | nil => intro a; exact le_rfl
  | cons b bs ih =>
    intro a
    exact le_trans (le_max_left a b) (ih (max a b))

lemma minDate_le_maxDate (g : List Int) (h : g ≠ []) : minDate g ≤ maxDate g := by
  cases g with
  | nil => exact absurd rfl h
  | cons a as =>
    exact le_trans (foldl_min_le_init as a) (foldl_max_init_le as a)

lemma splitGapsAux_ne_nil (rest : List Int) :
    ∀ (prev : Int) (cur : List Int), cur ≠ [] →
      ∀ g ∈ splitGapsAux prev cur rest, g ≠ [] := by
  induction rest with
  | nil =>
    intro prev cur hcur g hg
    simp only [splitGapsAux, List.mem_singleton] at hg
    exact hg ▸ hcur
  | cons t rest ih =>
    intro prev cur hcur g hg
    simp only [splitGapsAux] at hg
    by_cases h : t - prev ≤ 28
    · rw [if_pos h] at hg
      exact ih t (cur ++ [t]) (by simp) g hg
    · rw [if_neg h] at hg
      rcases List.mem_cons.mp hg with hg | hg
      · exact hg ▸ hcur
      · exact ih t [t] (by simp) g hg

lemma splitGapsAux_spec (rest : List Int) :
    ∀ (prev : Int) (cur : List Int), cur ≠ [] →
      cur.getLast? = some prev → List.Chain' sameEpisodeStep cur →
      (splitGapsAux prev cur rest).flatten = cur ++ rest ∧
      (∃ g1 tl, splitGapsAux prev cur rest = g1 :: tl ∧
        g1.head? = cur.head?) ∧
      (∀ g ∈ splitGapsAux prev cur rest, List.Chain' sameEpisodeStep g) ∧
      List.Chain' episodeBreak (splitGapsAux prev cur rest) := by
  induction rest with
  | nil =>
    intro prev cur hcur _ hchain
    refine ⟨by simp [splitGapsAux], ⟨cur, [], by simp [splitGapsAux], rfl⟩, ?_, ?_⟩
    · intro g hg
      simp only [splitGapsAux, List.mem_singleton] at hg
      exact hg ▸ hchain
    · simp [splitGapsAux]
  | cons t rest ih =>
    intro prev cur hcur hlast hchain
    by_cases h : t - prev ≤ 28
    · have hcur' : (cur ++ [t]) ≠ [] := by simp
      have hlast' : (cur ++ [t]).getLast? = some t := List.getLast?_concat cur
      have hchain' : List.Chain' sameEpisodeStep (cur ++ [t]) := by
        rw [List.chain'_append]
        refine ⟨hchain, List.chain'_singleton t, ?_⟩
        intro x hx y hy
        rw [hlast] at hx
        simp only [Option.mem_def, Option.some.injEq] at hx
        simp only [List.head?_cons, Option.mem_def, Option.some.injEq] at hy
        subst hx; subst hy
        exact h
      obtain ⟨hjoin, ⟨g1, tl, heq, hhead⟩, hall, hbreak⟩ :=
        ih t (cur ++ [t]) hcur' hlast' hchain'
      have hres : splitGapsAux prev cur (t :: rest) =
          splitGapsAux t (cur ++ [t]) rest := by
        simp [splitGapsAux, h]
      rw [hres]
      refine ⟨by rw [hjoin, List.append_assoc]; rfl,
        ⟨g1, tl, heq, ?_⟩, hall, hbreak⟩
      rw [hhead]
      cases cur with
      | nil => exact absurd rfl hcur
      | cons a as => simp
    · have hres : splitGapsAux prev cur (t :: rest) =
          cur :: splitGapsAux t [t] rest := by
        simp [splitGapsAux, h]
      obtain ⟨hjoin, ⟨g1, tl, heq, hhead⟩, hall, hbreak⟩ :=
        ih t [t] (by simp) (by simp) (List.chain'_singleton t)
      rw [hres]
      refine ⟨by simp [hjoin], ⟨cur, _, rfl, rfl⟩, ?_, ?_⟩
      · intro g hg
        rcases List.mem_cons.mp hg with hg | hg
        · exact hg ▸ hchain
        · exact hall g hg
      · rw [List.chain'_cons']
        refine ⟨?_, hbreak⟩
        intro g hg
        rw [heq] at hg
        simp only [List.head?_cons, Option.mem_def, Option.some.injEq] at hg
        subst hg
        intro a ha b hb
        rw [hlast] at ha
        simp only [Option.mem_def, Option.some.injEq] at ha
        rw [hhead] at hb
        simp only [List.head?_cons, Option.mem_def, Option.some.injEq] at hb
        subst ha; subst hb
        exact lt_of_not_le h

lemma splitGaps_spec (tests : List Int) :
    (splitGaps tests).flatten = tests ∧
    (∀ g ∈ splitGaps tests, g ≠ []) ∧
    (∀ g ∈ splitGaps tests, List.Chain' sameEpisodeStep g) ∧
    List.Chain' episodeBreak (splitGaps tests) := by
  cases tests with
  | nil => simp [splitGaps]
  | cons t rest =>
    obtain ⟨hjoin, _, hall, hbreak⟩ :=
      splitGapsAux_spec rest t [t] (by simp) (by simp)
        (List.chain'_singleton t)
    exact ⟨hjoin, splitGapsAux_ne_nil rest t [t] (by simp), hall, hbreak⟩

lemma create_episodes_positive_tests (patient_id infection : String)
    (tests : List Int) :
    (create_episodes_for_patient patient_id infection tests).map
      (fun ep => ep.positive_tests) = splitGaps tests := by
  unfold create_episodes_for_patient
  rw [List.map_map]
  exact List.enumFrom_map_snd 1 (splitGaps tests)

/-! ### Presence Indexer (`build_presence_index`) and Contact Detector -/

/-- A row of the transfers table with its date already converted. -/
structure Transfer where
  patient_id : String
  location : String
  date : Int
deriving DecidableEq, Repr

/-- The presence index: Python `defaultdict(list)` keyed by
`(location, date)`, holding episode-id lists. -/
abbrev PresenceIndex := List ((String × Int) × List String)

/-- Core loop of `build_presence_index` (runs after the date column of
the transfers table has been converted): for every episode, every
transfer row of the same patient whose date lies inside the episode
window (inclusive) registers the episode id under `(location, date)`. -/
def presenceOf (episodes : List InfectionEpisode) (transfers : List Transfer) :
    PresenceIndex :=
  episodes.foldl (fun idx ep =>
    (transfers.filter (fun t => decide (t.patient_id = ep.patient_id))).foldl
      (fun idx t =>
        if ep.episode_start ≤ t.date ∧ t.date ≤ ep.episode_end then
          updateAssoc idx (t.location, t.date) ep.episode_id
        else idx) idx) []

/-- `episodes_dict[i]` where `episodes_dict = {ep.episode_id: ep ...}`:
a later episode with the same id overwrites an earlier one, and lookup
of an absent key is a `KeyError`, hence `Option`. -/
def epLookup (episodes : List InfectionEpisode) (i : String) :
    Option InfectionEpisode :=
  episodes.reverse.find? (fun ep => decide (ep.episode_id = i))

/-- All index pairs `(i, j)` with `i < j`, in the order of the nested
`for i / for j in range(i+1, ...)` loops. -/
def pairsFrom {α : Type} : List α → List (α × α)
  | [] => []
  | x :: xs => (xs.map (fun y => (x, y))) ++ pairsFrom xs

/-- `detect_contacts`: every bucket of the presence index with at least
two present episodes contributes one edge per pair that shares the
pathogen and has overlapping windows.  The `episodes_dict` lookup raises
`KeyError` on an id that is not in `episodes` (never happens when the
index was built from the same episode list), hence `Option`. -/
def detect_contacts (presence_index : PresenceIndex)
    (episodes : List InfectionEpisode) : Option (List ContactEdge) :=
  presence_index.foldlM (fun contacts kv =>
    if kv.2.length < 2 then some contacts
    else (pairsFrom kv.2).foldlM (fun contacts pr => do
      let ep1 ← epLookup episodes pr.1
      let ep2 ← epLookup episodes pr.2
      if ep1.infection_type = ep2.infection_type ∧ ep1.overlaps_with ep2 then
        pure (contacts ++ [{ episode_a := pr.1, episode_b := pr.2,
                             contact_date := kv.1.2, location := kv.1.1 }])
      else pure contacts) contacts) []

/-- `group_episodes_by_infection`: `defaultdict(list)` grouping, key
order by first occurrence, episode order preserved. -/
def group_episodes_by_infection (episodes : List InfectionEpisode) :
    List (String × List InfectionEpisode) :=
  episodes.foldl (fun acc ep => updateAssoc acc ep.infection_type ep) []

/-! ### Union-Find -/

/-- The `UnionFind` class: `parent` and `rank` dictionaries over a fixed
key set `elems`.  The maps are total functions that are the identity
(resp. zero) off `elems`; the source would raise `KeyError` there, and
`find`/`union` are only ever called on initialized elements. -/
structure UnionFind (α : Type) [DecidableEq α] where
  elems : List α
  parent : α → α
  rank : α → Nat

/-- `UnionFind.__init__`: every element its own parent, rank 0.  Dict
comprehension keys are the distinct elements in first-occurrence
order. -/
def UnionFind.init {α : Type} [DecidableEq α] (elements : List α) :
    UnionFind α :=
  { elems := dedupFirst elements, parent := fun x => x, rank := fun _ => 0 }

/-- `UnionFind.find` with path compression, fuelled: the recursion depth
of the source is bounded by the number of elements because parent
pointers carry strictly increasing rank.  Returns the root and the
compressed parent map. -/
def findAux {α : Type} [DecidableEq α] (p : α → α) : Nat → α → α × (α → α)
  | 0, x => (x, p)
  | fuel + 1, x =>
    if p x = x then (x, p)
    else
      let r := findAux p fuel (p x)
      (r.1, fun y => if y = x then r.1 else r.2 y)

def UnionFind.find {α : Type} [DecidableEq α] (uf : UnionFind α) (x : α) :
    α × UnionFind α :=
  let r := findAux uf.parent uf.elems.length x
  (r.1, { uf with parent := r.2 })

/-- `UnionFind.union`: union by rank; both `find` calls compress. -/
def UnionFind.union {α : Type} [DecidableEq α] (uf : UnionFind α) (x y : α) :
    UnionFind α :=
  let fx := uf.find x
  let fy := fx.2.find y
  let root_x := fx.1
  let root_y := fy.1
  let uf2 := fy.2
  if root_x = root_y then uf2
  else
    let rp := if uf2.rank root_x < uf2.rank root_y
              then (root_y, root_x) else (root_x, root_y)
    { elems := uf2.elems
      parent := fun z => if z = rp.2 then rp.1 else uf2.parent z
      rank := if uf2.rank rp.1 = uf2.rank rp.2
              then fun z => if z = rp.1 then uf2.rank rp.1 + 1 else uf2.rank z
              else uf2.rank }

/-- `UnionFind.get_components`: group the elements by their root
(`self.find(elem)` keeps compressing, so the parent map is threaded);
`defaultdict(list)` gives groups keyed by first occurrence. -/
def UnionFind.get_components {α : Type} [DecidableEq α] (uf : UnionFind α) :
    List (List α) :=
  (uf.elems.foldl (fun (acc : (α → α) × List (α × List α)) e =>
    let r := findAux acc.1 uf.elems.length e
    (r.2, updateAssoc acc.2 r.1 e)) (uf.parent, [])).2.map (fun kv => kv.2)

/-! ### Cluster Detector (`detect_clusters`, `create_cluster`) -/

/-- `create_cluster`: patient set, location set (from the contact edges),
and the min/max window range across the members (seeded from the first
member; callers always pass at least two episodes). -/
def create_cluster (infection_type : String)
    (episodes : List InfectionEpisode) (contacts : List ContactEdge) :
    EpisodeCluster :=
  let unique_patients := episodes.foldl (fun s ep => setAdd s ep.patient_id) []
  let init_start := match episodes with | [] => 0 | ep :: _ => ep.episode_start
  let init_end := match episodes with | [] => 0 | ep :: _ => ep.episode_end
  let range := episodes.foldl (fun (r : Int × Int) ep =>
    (if ep.episode_start < r.1 then ep.episode_start else r.1,
     if r.2 < ep.episode_end then ep.episode_end else r.2))
    (init_start, init_end)
  let locations := contacts.foldl (fun s c => setAdd s c.location) []
  let c0 : EpisodeCluster :=
    { cluster_id := ""
      infection_type := infection_type
      episodes := episodes
      unique_patients := unique_patients
      locations := locations
      date_range := range
      contact_events := contacts }
  { c0 with cluster_id := c0.get_technical_id }

/-- `detect_clusters`: restrict the contact edges to this pathogen's
episodes, union the endpoints over a Union-Find of the episode ids, and
materialize every component with at least two members.  The
`episodes_dict[ep_id]` comprehension can only raise `KeyError` on an id
outside `episodes`, which cannot happen (components only contain
initialized ids), so the lookup's dead failure branch drops the id. -/
def detect_clusters (episodes : List InfectionEpisode)
    (contacts : List ContactEdge) (infection_type : String) :
    List EpisodeCluster :=
  if episodes.length < 2 then []
  else
    let relevant_contacts := contacts.filter (fun c =>
      episodes.any (fun ep =>
        decide (ep.episode_id = c.episode_a ∧
                ep.infection_type = infection_type)) &&
      episodes.any (fun ep =>
        decide (ep.episode_id = c.episode_b ∧
                ep.infection_type = infection_type)))
    let episode_ids := episodes.map (fun ep => ep.episode_id)
    let uf := relevant_contacts.foldl
      (fun uf c => uf.union c.episode_a c.episode_b)
      (UnionFind.init episode_ids)
    uf.get_components.foldl (fun clusters component =>
      if 2 ≤ component.length then
        let cluster_episodes := component.filterMap (epLookup episodes)
        let cluster_contacts := relevant_contacts.filter (fun c =>
          decide (c.episode_a ∈ component) && decide (c.episode_b ∈ component))
        clusters ++ [create_cluster infection_type cluster_episodes
                       cluster_contacts]
      else clusters) []

/-! ### Brute-force connected components (spec side) -/

/-- Modelled from the spec: "Cluster membership is exactly the transitive
closure of direct contact edges" — the reflexive-symmetric-transitive
closure of the edge list. -/
def linkedE {α : Type} (edges : List (α × α)) (x y : α) : Prop :=
  Relation.EqvGen (fun u v => (u, v) ∈ edges ∨ (v, u) ∈ edges) x y

/-- `x` and `y` lie in one group of the grouping `gs`. -/
def sameGroup {α : Type} (gs : List (List α)) (x y : α) : Prop :=
  ∃ g ∈ gs, x ∈ g ∧ y ∈ g

/-- Modelled from the spec: one step of the "naive brute-force
connected-components computation" the spec asks to compare Union-Find
against — merge all groups touching either endpoint of an edge. -/
def bruteMergeE {α : Type} [DecidableEq α] (gs : List (List α)) (a b : α) :
    List (List α) :=
  (gs.filter (fun g => decide (a ∉ g) && decide (b ∉ g))) ++
    [(gs.filter (fun g => decide (a ∈ g) || decide (b ∈ g))).flatten]

/-- Modelled from the spec: naive brute-force connected components —
start from singleton groups and merge along every edge. -/
def bruteComponents {α : Type} [DecidableEq α] (vertices : List α)
    (edges : List (α × α)) : List (List α) :=
  edges.foldl (fun gs e => bruteMergeE gs e.1 e.2)
    (vertices.map (fun v => [v]))

/-! ### Analysis boundary (`analyze_csv_data`) -/

/-- A raw calendar-date cell: either a parseable date or unparseable
text (`pd.to_datetime` raises on the latter). -/
inductive DateCell : Type
  | valid (d : Int)
  | invalid (s : String)
deriving DecidableEq, Repr

/-- `pd.to_datetime` on one cell. -/
def parseDate : DateCell → Except String Int
  | .valid d => .ok d
  | .invalid s => .error ("could not parse date " ++ s)

/-- A raw microbiology row (required columns only; the algorithm reads
no others). -/
structure MicroRow where
  patient_id : String
  infection : String
  collection_date : DateCell
  result : String
deriving DecidableEq, Repr

/-- A raw transfers row. -/
structure TransferRow where
  patient_id : String
  location : String
  date : DateCell
deriving DecidableEq, Repr

/-- A parsed CSV table as `pd.read_csv` yields it: shaped like the
microbiology table, like the transfers table, or like neither (touching
an absent required column then raises `KeyError`). -/
inductive RawTable
  | micro (rows : List MicroRow)
  | transfers (rows : List TransferRow)
  | otherShape (descr : String)
deriving DecidableEq, Repr

/-- The text of one uploaded CSV file, embedded by its parse outcome:
`pd.read_csv` either fails on malformed text or yields a table. -/
inductive CsvContent
  | malformed (msg : String)
  | parsed (t : RawTable)
deriving DecidableEq, Repr

/-- `pd.read_csv(StringIO(content))`. -/
def read_csv : CsvContent → Except String RawTable
  | .malformed msg => .error ("read_csv failed: " ++ msg)
  | .parsed t => .ok t

/-- One element of `csv_content_list`. -/
structure FileData where
  filename : String
  content : CsvContent
deriving DecidableEq, Repr

/-- Pair order used by `groupby(['patient_id', 'infection'])`: pandas
sorts the group keys. -/
def keyLe (a b : String × String) : Prop :=
  a.1 < b.1 ∨ (a.1 = b.1 ∧ a.2 ≤ b.2)

instance : DecidableRel keyLe := fun a b => by
  unfold keyLe
  exact inferInstance

/-- `prepare_episodes`: keep positive rows, convert the date column
(failing the run on any unparseable date), group by sorted
`(patient_id, infection)` key, sort each group by collection date, and
build the groups' episodes. -/
def prepare_episodes (t : RawTable) : Except String (List InfectionEpisode) :=
  match t with
  | .micro rows =>
    let positive := rows.filter (fun r => decide (r.result = "positive"))
    if positive.isEmpty then Except.ok []
    else do
      let parsed ← positive.mapM (fun r => do
        let d ← parseDate r.collection_date
        pure (r.patient_id, r.infection, d))
      let keys := List.insertionSort keyLe
        (dedupFirst (parsed.map (fun r => (r.1, r.2.1))))
      pure (keys.foldl (fun acc key =>
        let dates := (parsed.filter (fun r =>
          decide (r.1 = key.1 ∧ r.2.1 = key.2))).map (fun r => r.2.2)
        acc ++ create_episodes_for_patient key.1 key.2
          (List.insertionSort (fun a b : Int => a ≤ b) dates)) [])
  | _ => Except.error "KeyError: missing microbiology columns"

/-- `build_presence_index`: convert the transfers' date column (failing
the run on any unparseable date) and run the indexing loop. -/
def build_presence_index (episodes : List InfectionEpisode) (t : RawTable) :
    Except String PresenceIndex :=
  match t with
  | .transfers rows => do
    let parsed ← rows.mapM (fun r => do
      let d ← parseDate r.date
      pure ({ patient_id := r.patient_id, location := r.location,
              date := d } : Transfer))
    pure (presenceOf episodes parsed)
  | _ => Except.error "KeyError: missing transfers columns"

/-- `format_cluster_summary` output. -/
structure ClusterSummary where
  cluster_id : String
  display_name : String
  infection_type : String
  patient_count : Nat
  episode_count : Nat
  locations : List String
  date_range_start : String
  date_range_end : String
  duration_days : Int
  risk_score : ℚ
  contacts_count : Nat
deriving DecidableEq, Repr

def format_cluster_summary (c : EpisodeCluster) : ClusterSummary :=
  { cluster_id := c.cluster_id
    display_name := c.get_display_name
    infection_type := c.infection_type
    patient_count := c.patient_count
    episode_count := c.episode_count
    locations := c.locations
    date_range_start := dateISO c.date_range.1
    date_range_end := dateISO c.date_range.2
    duration_days := c.duration_days
    risk_score := c.risk_score
    contacts_count := c.contact_events.length }

/-- `format_episode_summary` output. -/
structure EpisodeSummary where
  episode_id : String
  patient_id : String
  infection_type : String
  episode_number : Nat
  window_start : String
  window_end : String
  positive_tests_count : Nat
deriving DecidableEq, Repr

def format_episode_summary (ep : InfectionEpisode) : EpisodeSummary :=
  { episode_id := ep.episode_id
    patient_id := ep.patient_id
    infection_type := ep.infection_type
    episode_number := ep.episode_number
    window_start := dateISO ep.episode_start
    window_end := dateISO ep.episode_end
    positive_tests_count := ep.positive_tests.length }

/-- `format_contact_summary` output. -/
structure ContactSummary where
  episode_a : String
  episode_b : String
  contact_date : String
  location : String
  contact_type : String
  weight : ℚ
deriving DecidableEq, Repr

def format_contact_summary (c : ContactEdge) : ContactSummary :=
  { episode_a := c.episode_a
    episode_b := c.episode_b
    contact_date := dateISO c.contact_date
    location := c.location
    contact_type := c.contact_type
    weight := c.weight }

/-- `calculate_summary_stats` output. -/
structure SummaryStats where
  total_patients_in_clusters : Nat
  avg_cluster_size : ℚ
  largest_cluster_size : Nat
  infections_with_clusters : List String
deriving DecidableEq, Repr

def calculate_summary_stats (clusters : List EpisodeCluster) : SummaryStats :=
  if clusters.isEmpty then
    { total_patients_in_clusters := 0, avg_cluster_size := 0,
      largest_cluster_size := 0, infections_with_clusters := [] }
  else
    let all_patients := clusters.foldl
      (fun s c => c.unique_patients.foldl setAdd s) []
    let cluster_sizes := clusters.map (fun c => c.patient_count)
    let infections := clusters.foldl (fun s c => setAdd s c.infection_type) []
    { total_patients_in_clusters := all_patients.length
      avg_cluster_size :=
        ((cluster_sizes.foldl (· + ·) 0 : Nat) : ℚ) /
          (cluster_sizes.length : ℚ)
      largest_cluster_size := cluster_sizes.foldl max 0
      infections_with_clusters := infections }

/-- The run-level counters and statistics of a successful analysis. -/
structure AnalysisTotals where
  total_episodes : Nat
  total_contacts : Nat
  total_clusters : Nat
  clusters_by_infection : List (String × Nat)
  summary_stats : SummaryStats
deriving DecidableEq, Repr

/-- The result dictionary of `analyze_csv_data`: the error dictionaries
carry only `error` plus the three empty collections (`totals := none`),
a successful run carries no `error` key (`error := none`). -/
structure AnalysisResult where
  error : Option String
  clusters : List ClusterSummary
  episodes : List EpisodeSummary
  contacts : List ContactSummary
  totals : Option AnalysisTotals
deriving DecidableEq, Repr

/-- The error dictionary: an error message and empty collections. -/
def errorResult (msg : String) : AnalysisResult :=
  { error := some msg, clusters := [], episodes := [], contacts := [],
    totals := none }

/-- Steps 1-5 of `analyze_csv_data` (the body of the `try` block after
the two tables are in hand). -/
def runPipeline (microbiology_data transfers_data : RawTable) :
    Except String AnalysisResult := do
  let episodes ← prepare_episodes microbiology_data
  let presence_index ← build_presence_index episodes transfers_data
  let contacts ← match detect_contacts presence_index episodes with
    | some cs => Except.ok cs
    | none => Except.error "KeyError: episode id missing"
  let episodes_by_infection := group_episodes_by_infection episodes
  let all_clusters := episodes_by_infection.foldl
    (fun acc kv => acc ++ detect_clusters kv.2 contacts kv.1) []
  pure
    { error := none
      clusters := all_clusters.map format_cluster_summary
      episodes := episodes.map format_episode_summary
      contacts := contacts.map format_contact_summary
      totals := some
        { total_episodes := episodes.length
          total_contacts := contacts.length
          total_clusters := all_clusters.length
          clusters_by_infection := episodes_by_infection.map (fun kv =>
            (kv.1, (all_clusters.filter (fun c =>
              decide (c.infection_type = kv.1))).length))
          summary_stats := calculate_summary_stats all_clusters } }

/-- The file-classification loop of `analyze_csv_data`: a filename
containing `"microbiology"` (case-insensitively) is read as the
microbiology table, else one containing `"transfer"` as the transfers
table; later files overwrite earlier ones, other files are skipped.
`read_csv` failures abort (they are exceptions inside the `try`). -/
def parseFilesAux (acc : Option RawTable × Option RawTable) :
    List FileData → Except String (Option RawTable × Option RawTable)
  | [] => Except.ok acc
  | f :: rest =>
    if containsSub (strLower f.filename) "microbiology" then do
      let t ← read_csv f.content
      parseFilesAux (some t, acc.2) rest
    else if containsSub (strLower f.filename) "transfer" then do
      let t ← read_csv f.content
      parseFilesAux (acc.1, some t) rest
    else parseFilesAux acc rest

def parseFiles (files : List FileData) :
    Except String (Option RawTable × Option RawTable) :=
  parseFilesAux (none, none) files

/-- `analyze_csv_data`: classify and read the files, require both
tables, run the pipeline; every exception becomes the
`"Analysis failed: ..."` error dictionary. -/
def analyze_csv_data (csv_content_list : List FileData) : AnalysisResult :=
  match parseFiles csv_content_list with
  | .error e => errorResult ("Analysis failed: " ++ e)
  | .ok (microbiology_data, transfers_data) =>
    match microbiology_data, transfers_data with
    | some m, some t =>
      match runPipeline m t with
      | .ok res => res
      | .error e => errorResult ("Analysis failed: " ++ e)
    | _, _ => errorResult "Both microbiology and transfers data required"

/-! ### Claim C2 -/

/-- C2: for every patient/pathogen test list, `create_episodes_for_patient`
puts two consecutive tests in the same episode exactly when their gap is
at most 28 days: the episodes' test groups concatenate back to the input,
within one episode consecutive test dates are ≤ 28 days apart, and the
contributing test groups of two adjacent episodes are separated by a gap
of more than 28 days. -/
theorem C2_gap_rule (patient_id infection : String) (tests : List Int) :
    ((create_episodes_for_patient patient_id infection tests).map
      (fun ep => ep.positive_tests)).flatten = tests ∧
    (∀ ep ∈ create_episodes_for_patient patient_id infection tests,
      List.Chain' sameEpisodeStep ep.positive_tests) ∧
    List.Chain' episodeBreak
      ((create_episodes_for_patient patient_id infection tests).map
        (fun ep => ep.positive_tests)) := by
  obtain ⟨hflat, _, hall, hbreak⟩ := splitGaps_spec tests
  rw [create_episodes_positive_tests]
  refine ⟨hflat, ?_, hbreak⟩
  intro ep hep
  have : ep.positive_tests ∈ splitGaps tests := by
    rw [← create_episodes_positive_tests patient_id infection tests]
    exact List.mem_map_of_mem _ hep
  exact hall _ this

/-- Witness for C2 at a concrete input: tests `[0, 20, 60]` split into
the groups `[0, 20]` and `[60]`. -/
theorem C2_gap_rule_witness :
    List.Chain' sameEpisodeStep
      (InfectionEpisode.positive_tests
        { episode_id := "P_X_EP001", patient_id := "P", infection_type := "X",
          episode_number := 1, episode_start := -14, episode_end := 34,
          positive_tests := [0, 20] }) :=
  (C2_gap_rule "P" "X" [0, 20, 60]).2.1 _ (by decide)

/-! ### Claim C3 -/

/-- C3: every episode produced by the Episode Builder has
`episode_start` equal to the minimum collection date of its test group
minus 14 days, `episode_end` equal to the maximum plus 14 days, and
consequently `episode_start ≤ episode_end`. -/
theorem C3_episode_window (patient_id infection : String) (tests : List Int)
    (ep : InfectionEpisode)
    (hep : ep ∈ create_episodes_for_patient patient_id infection tests) :
    ep.positive_tests ≠ [] ∧
    ep.episode_start = minDate ep.positive_tests - 14 ∧
    ep.episode_end = maxDate ep.positive_tests + 14 ∧
    ep.episode_start ≤ ep.episode_end := by
  unfold create_episodes_for_patient at hep
  obtain ⟨p, hp, rfl⟩ := List.mem_map.mp hep
  have hg : p.2 ∈ splitGaps tests := List.snd_mem_of_mem_enumFrom hp
  have hne : p.2 ≠ [] := (splitGaps_spec tests).2.1 p.2 hg
  refine ⟨hne, rfl, rfl, ?_⟩
  have := minDate_le_maxDate p.2 hne
  simp only
  omega

/-- Witness for C3 at a concrete input: the single-test group `[10]`
yields the window `[-4, 24]`. -/
theorem C3_episode_window_witness :
    InfectionEpisode.episode_start
        { episode_id := "P_X_EP001", patient_id := "P", infection_type := "X",
          episode_number := 1, episode_start := -4, episode_end := 24,
          positive_tests := [10] } ≤
      InfectionEpisode.episode_end
        { episode_id := "P_X_EP001", patient_id := "P", infection_type := "X",
          episode_number := 1, episode_start := -4, episode_end := 24,
          positive_tests := [10] } :=
  (C3_episode_window "P" "X" [10] _ (by decide)).2.2.2

/-! ### Claim C8 -/

lemma sortedStrings_perm_eq {l1 l2 : List String} (h : l1.Perm l2) :
    sortedStrings l1 = sortedStrings l2 := by
  refine List.eq_of_perm_of_sorted
    (((List.perm_insertionSort _ l1).trans h).trans
      (List.perm_insertionSort _ l2).symm)
    (List.sorted_insertionSort _ l1)
    (List.sorted_insertionSort _ l2)

/-- C8: re-running the analysis on identical input yields identical
results (the analysis boundary is a function of its input), and the
technical id of a cluster depends only on its pathogen, the earliest
window start of its members, and the (order-independent) location set. -/
theorem C8_determinism :
    (∀ files : List FileData,
      analyze_csv_data files = analyze_csv_data files) ∧
    (∀ c1 c2 : EpisodeCluster, c1.infection_type = c2.infection_type →
      c1.date_range.1 = c2.date_range.1 → c1.locations.Perm c2.locations →
      c1.get_technical_id = c2.get_technical_id) := by
  refine ⟨fun _ => rfl, fun c1 c2 hty hdate hloc => ?_⟩
  unfold EpisodeCluster.get_technical_id
  rw [hty, hdate, sortedStrings_perm_eq hloc]

/-- Witness for C8: two clusters agreeing on pathogen, earliest start
date and location set (in different orders, and differing everywhere
else) receive the same technical id. -/
theorem C8_determinism_witness :
    EpisodeCluster.get_technical_id
        { cluster_id := "x", infection_type := "CRE", episodes := [],
          unique_patients := ["P1"], locations := ["WardB", "WardA"],
          date_range := (5, 9), contact_events := [] } =
      EpisodeCluster.get_technical_id
        { cluster_id := "y", infection_type := "CRE", episodes := [],
          unique_patients := ["P2", "P3"], locations := ["WardA", "WardB"],
          date_range := (5, 30), contact_events := [] } :=
  C8_determinism.2 _ _ rfl rfl (by decide)

/-! ### Claim C10 -/

/-- The filename is classified as the microbiology table. -/
def isMicroFile (f : FileData) : Bool :=
  containsSub (strLower f.filename) "microbiology"

/-- The filename is classified as the transfers table (the `elif`: only
when it is not already classified as microbiology). -/
def isTransferFile (f : FileData) : Bool :=
  !isMicroFile f && containsSub (strLower f.filename) "transfer"

/-- The table obtained from the last file of a list, when its content
parses. -/
def lastParsed (fs : List FileData) : Option RawTable :=
  fs.getLast?.bind (fun f => (read_csv f.content).toOption)

/-- First-some choice on options. -/
def optOrElse {α : Type} (a b : Option α) : Option α :=
  match a with
  | some x => some x
  | none => b

lemma getLast?_mem_of_eq_some {α : Type} :
    ∀ {l : List α} {a : α}, l.getLast? = some a → a ∈ l
  | [], _, h => by simp at h
  | [x], a, h => by
    simp only [List.getLast?_singleton, Option.some.injEq] at h
    simp [h]
  | x :: y :: l, a, h => by
    rw [List.getLast?_cons_cons] at h
    exact List.mem_cons_of_mem x (getLast?_mem_of_eq_some h)

lemma parseFilesAux_ok_reads :
    ∀ (files : List FileData) (acc r), parseFilesAux acc files = .ok r →
      ∀ f ∈ files,
        (isMicroFile f = true ∨
          containsSub (strLower f.filename) "transfer" = true) →
        ∃ tb, read_csv f.content = .ok tb := by
  intro files
  induction files with
  | nil => intro acc r _ f hf; simp at hf
  | cons g rest ih =>
    intro acc r hok f hf hmatch
    unfold parseFilesAux at hok
    by_cases hm : containsSub (strLower g.filename) "microbiology"
    · rw [if_pos hm] at hok
      cases hr : read_csv g.content with
      | error e =>
        rw [hr] at hok
        exact absurd hok (by simp [bind, Except.bind])
      | ok tb =>
        rw [hr] at hok
        simp only [bind, Except.bind] at hok
        rcases List.mem_cons.mp hf with hf | hf
        · subst hf; exact ⟨tb, hr⟩
        · exact ih _ _ hok f hf hmatch
    · rw [if_neg hm] at hok
      by_cases ht : containsSub (strLower g.filename) "transfer"
      · rw [if_pos ht] at hok
        cases hr : read_csv g.content with
        | error e =>
          rw [hr] at hok
          exact absurd hok (by simp [bind, Except.bind])
        | ok tb =>
          rw [hr] at hok
          simp only [bind, Except.bind] at hok
          rcases List.mem_cons.mp hf with hf | hf
          · subst hf; exact ⟨tb, hr⟩
          · exact ih _ _ hok f hf hmatch
      · rw [if_neg ht] at hok
        rcases List.mem_cons.mp hf with hf | hf
        · subst hf
          rcases hmatch with h | h
          · exact absurd h (by simpa [isMicroFile] using hm)
          · exact absurd h (by simpa using ht)
        · exact ih _ _ hok f hf hmatch

lemma lastParsed_filter_ne_none {p : FileData → Bool}
    (rest : List FileData) (acc : Option RawTable × Option RawTable)
    (r : Option RawTable × Option RawTable)
    (hok : parseFilesAux acc rest = .ok r)
    (hne : rest.filter p ≠ [])
    (hp : ∀ f, p f = true →
      (isMicroFile f = true ∨
        containsSub (strLower f.filename) "transfer" = true)) :
    ∃ tb, lastParsed (rest.filter p) = some tb := by
  cases hgl : (rest.filter p).getLast? with
  | none => exact absurd (List.getLast?_eq_none_iff.mp hgl) hne
  | some g =>
    have hgmem := getLast?_mem_of_eq_some hgl
    rw [List.mem_filter] at hgmem
    obtain ⟨tb, htb⟩ :=
      parseFilesAux_ok_reads rest acc r hok g hgmem.1 (hp g hgmem.2)
    exact ⟨tb, by simp [lastParsed, hgl, htb, Except.toOption]⟩

lemma parseFilesAux_spec :
    ∀ (files : List FileData) (acc m t),
      parseFilesAux acc files = .ok (m, t) →
      m = optOrElse (lastParsed (files.filter isMicroFile)) acc.1 ∧
      t = optOrElse (lastParsed (files.filter isTransferFile)) acc.2 := by
  intro files
  induction files with
  | nil =>
    intro acc m t hok
    unfold parseFilesAux at hok
    cases hok
    exact ⟨rfl, rfl⟩
  | cons g rest ih =>
    intro acc m t hok
    unfold parseFilesAux at hok
    by_cases hm : containsSub (strLower g.filename) "microbiology"
    · rw [if_pos hm] at hok
      cases hr : read_csv g.content with
      | error e =>
        rw [hr] at hok
        exact absurd hok (by simp [bind, Except.bind])
      | ok tb =>
        rw [hr] at hok
        simp only [bind, Except.bind] at hok
        obtain ⟨ihm, iht⟩ := ih _ _ _ hok
        have hgm : isMicroFile g = true := hm
        have hgt : isTransferFile g = false := by
          simp [isTransferFile, isMicroFile, hm]
        constructor
        · rw [List.filter_cons_of_pos hgm]
          cases hfe : rest.filter isMicroFile with
          | nil =>
            have hlp : lastParsed [g] = some tb := by
              simp [lastParsed, hr, Except.toOption]
            rw [hfe] at ihm
            rw [hlp]
            simpa [optOrElse, lastParsed] using ihm
          | cons h1 l1 =>
            have hne : rest.filter isMicroFile ≠ [] := by simp [hfe]
            obtain ⟨tb2, htb2⟩ := lastParsed_filter_ne_none rest _ _ hok hne
              (fun f hf => Or.inl hf)
            rw [← hfe]
            have : lastParsed (g :: rest.filter isMicroFile) =
                lastParsed (rest.filter isMicroFile) := by
              rw [hfe]
              simp [lastParsed, List.getLast?_cons_cons]
            rw [this, htb2]
            rw [htb2] at ihm
            simpa [optOrElse] using ihm
        · rw [List.filter_cons_of_neg (by simp [hgt])]
          exact iht
    · rw [if_neg hm] at hok
      by_cases ht : containsSub (strLower g.filename) "transfer"
      · rw [if_pos ht] at hok
        cases hr : read_csv g.content with
        | error e =>
          rw [hr] at hok
          exact absurd hok (by simp [bind, Except.bind])
        | ok tb =>
          rw [hr] at hok
          simp only [bind, Except.bind] at hok
          obtain ⟨ihm, iht⟩ := ih _ _ _ hok
          have hgm : isMicroFile g = false := by simpa [isMicroFile] using hm
          have hgt : isTransferFile g = true := by
            simp [isTransferFile, isMicroFile, hm, ht]
          constructor
          · rw [List.filter_cons_of_neg (by simp [hgm])]
            exact ihm
          · rw [List.filter_cons_of_pos hgt]
            cases hfe : rest.filter isTransferFile with
            | nil =>
              have hlp : lastParsed [g] = some tb := by
                simp [lastParsed, hr, Except.toOption]
              rw [hfe] at iht
              rw [hlp]
              simpa [optOrElse, lastParsed] using iht
            | cons h1 l1 =>
              have hne : rest.filter isTransferFile ≠ [] := by simp [hfe]
              obtain ⟨tb2, htb2⟩ := lastParsed_filter_ne_none rest _ _ hok hne
                (fun f hf => Or.inr (by
                  simp only [isTransferFile, Bool.and_eq_true] at hf
                  exact hf.2))
              rw [← hfe]
              have : lastParsed (g :: rest.filter isTransferFile) =
                  lastParsed (rest.filter isTransferFile) := by
                rw [hfe]
                simp [lastParsed, List.getLast?_cons_cons]
              rw [this, htb2]
              rw [htb2] at iht
              simpa [optOrElse] using iht
      · rw [if_neg ht] at hok
        obtain ⟨ihm, iht⟩ := ih _ _ _ hok
        have hgm : isMicroFile g = false := by simpa [isMicroFile] using hm
        have hgt : isTransferFile g = false := by
          simp [isTransferFile, isMicroFile, hm, ht]
        exact ⟨by rw [List.filter_cons_of_neg (by simp [hgm])]; exact ihm,
               by rw [List.filter_cons_of_neg (by simp [hgt])]; exact iht⟩

/-- C10: the microbiology table comes from the last file whose name
contains `"microbiology"` case-insensitively, the transfers table from
the last file whose name contains `"transfer"` but not
`"microbiology"` (a name with both substrings is classified as
microbiology, since that test runs first), and files matching neither
substring are ignored. -/
theorem C10_file_selection (files : List FileData) (m t : Option RawTable)
    (h : parseFiles files = .ok (m, t)) :
    m = lastParsed (files.filter isMicroFile) ∧
    t = lastParsed (files.filter isTransferFile) := by
  obtain ⟨hm, ht⟩ := parseFilesAux_spec files (none, none) m t h
  constructor
  · rw [hm]; cases lastParsed (files.filter isMicroFile) <;> rfl
  · rw [ht]; cases lastParsed (files.filter isTransferFile) <;> rfl

/-- A sample file list exercising the classification rules: an unmatched
file, a file whose name carries both substrings, a transfers file, and a
later plain microbiology file. -/
def sampleFiles : List FileData :=
  [{ filename := "notes.txt", content := .parsed (.otherShape "x") },
   { filename := "Transfer_Microbiology.csv",
     content := .parsed (.micro [⟨"Q", "I", .valid 0, "negative"⟩]) },
   { filename := "ward_transfers.csv", content := .parsed (.transfers []) },
   { filename := "microbiology2.csv", content := .parsed (.micro []) }]

/-- Witness for C10: a name with both substrings counts as microbiology,
the later plain microbiology file wins, and unmatched files are
ignored. -/
theorem C10_file_selection_witness :
    some (RawTable.micro []) = lastParsed (sampleFiles.filter isMicroFile) ∧
    some (RawTable.transfers []) =
      lastParsed (sampleFiles.filter isTransferFile) :=
  C10_file_selection sampleFiles _ _ (by decide)

/-! ### Claim C7 -/

/-- C7: `analyze_csv_data` never raises: when either dataset is absent,
or any exception occurs (CSV parse failure, missing columns, date parse
failure, a failed dictionary lookup), it returns the error dictionary —
an error indicator together with empty clusters, episodes and contacts
collections and no partial analysis output. -/
theorem C7_error_boundary (files : List FileData)
    (h : (∃ e, parseFiles files = .error e) ∨
         (∃ m t, parseFiles files = .ok (m, t) ∧ (m = none ∨ t = none)) ∨
         (∃ m t e, parseFiles files = .ok (some m, some t) ∧
           runPipeline m t = .error e)) :
    (analyze_csv_data files).error.isSome ∧
    (analyze_csv_data files).clusters = [] ∧
    (analyze_csv_data files).episodes = [] ∧
    (analyze_csv_data files).contacts = [] ∧
    (analyze_csv_data files).totals = none := by
  unfold analyze_csv_data
  rcases h with ⟨e, he⟩ | ⟨m, t, hmt, habs⟩ | ⟨m, t, e, hmt, hrun⟩
  · rw [he]
    simp [errorResult]
  · rw [hmt]
    rcases habs with rfl | rfl
    · cases t <;> simp [errorResult]
    · cases m <;> simp [errorResult]
  · rw [hmt]
    simp only
    rw [hrun]
    simp [errorResult]

/-- Witness for C7: the empty file list is missing both datasets, and
the result is the error dictionary with empty collections. -/
theorem C7_error_boundary_witness :
    (analyze_csv_data []).error.isSome ∧
    (analyze_csv_data []).clusters = [] ∧
    (analyze_csv_data []).episodes = [] ∧
    (analyze_csv_data []).contacts = [] ∧
    (analyze_csv_data []).totals = none :=
  C7_error_boundary []
    (Or.inr (Or.inl ⟨none, none, rfl, Or.inl rfl⟩))

/-! ### Presence-index lemmas (Claims C5 and C4) -/

lemma lookupAssoc_updateAssoc_self {κ α : Type} [DecidableEq κ]
    (m : List (κ × List α)) (k : κ) (v : α) :
    lookupAssoc (updateAssoc m k v) k = lookupAssoc m k ++ [v] := by
  induction m with
  | nil => simp [updateAssoc, lookupAssoc]
  | cons kv rest ih =>
    obtain ⟨k', vs⟩ := kv
    by_cases h : k' = k
    · subst h
      simp [updateAssoc, lookupAssoc]
    · simp [updateAssoc, lookupAssoc, h, ih]

lemma lookupAssoc_updateAssoc_other {κ α : Type} [DecidableEq κ]
    (m : List (κ × List α)) (k k2 : κ) (v : α) (h : k2 ≠ k) :
    lookupAssoc (updateAssoc m k v) k2 = lookupAssoc m k2 := by
  induction m with
  | nil =>
    simp [updateAssoc, lookupAssoc, Ne.symm h]
  | cons kv rest ih =>
    obtain ⟨k', vs⟩ := kv
    by_cases hk : k' = k
    · subst hk
      simp [updateAssoc, lookupAssoc, Ne.symm h]
    · by_cases hk2 : k' = k2
      · simp [updateAssoc, lookupAssoc, hk, hk2, h]
      · simp [updateAssoc, lookupAssoc, hk, hk2, ih]

lemma inner_count (ep : InfectionEpisode) (loc : String) (d : Int)
    (e : String) :
    ∀ (ts : List Transfer) (idx0 : PresenceIndex),
      List.count e (lookupAssoc (ts.foldl (fun idx t =>
          if ep.episode_start ≤ t.date ∧ t.date ≤ ep.episode_end then
            updateAssoc idx (t.location, t.date) ep.episode_id
          else idx) idx0) (loc, d)) =
      List.count e (lookupAssoc idx0 (loc, d)) +
        (if e = ep.episode_id then
          (ts.filter (fun t => decide (t.location = loc ∧ t.date = d ∧
            ep.episode_start ≤ t.date ∧ t.date ≤ ep.episode_end))).length
        else 0) := by
  intro ts
  induction ts with
  | nil => intro idx0; simp
  | cons t ts ih =>
    intro idx0
    simp only [List.foldl_cons]
    by_cases hw : ep.episode_start ≤ t.date ∧ t.date ≤ ep.episode_end
    · rw [if_pos hw, ih]
      by_cases hk : (t.location, t.date) = ((loc, d) : String × Int)
      · have h1 : lookupAssoc
            (updateAssoc idx0 (t.location, t.date) ep.episode_id) (loc, d) =
            lookupAssoc idx0 (loc, d) ++ [ep.episode_id] := by
          rw [hk]
          exact lookupAssoc_updateAssoc_self idx0 (loc, d) ep.episode_id
        rw [h1, List.count_append]
        have hkk : t.location = loc ∧ t.date = d := by
          have h1 := congrArg Prod.fst hk
          have h2 := congrArg Prod.snd hk
          exact ⟨h1, h2⟩
        rw [List.filter_cons_of_pos (by
          simp only [decide_eq_true_eq]
          exact ⟨hkk.1, hkk.2, hw.1, hw.2⟩),
          List.count_singleton, List.length_cons]
        by_cases he : e = ep.episode_id
        · have hbeq : (ep.episode_id == e) = true := beq_iff_eq.mpr he.symm
          simp only [if_pos he, if_pos hbeq]
          try omega
        · have hbeq : ¬((ep.episode_id == e) = true) := by
            rw [beq_iff_eq]
            exact fun hh => he hh.symm
          simp only [if_neg he, if_neg hbeq]
          try omega
      · have h1 : lookupAssoc
            (updateAssoc idx0 (t.location, t.date) ep.episode_id) (loc, d) =
            lookupAssoc idx0 (loc, d) :=
          lookupAssoc_updateAssoc_other idx0 (t.location, t.date) (loc, d)
            ep.episode_id (fun hh => hk hh.symm)
        rw [h1]
        have hcond : ¬(t.location = loc ∧ t.date = d ∧
            ep.episode_start ≤ t.date ∧ t.date ≤ ep.episode_end) := by
          rintro ⟨h1', h2', _, _⟩
          exact hk (by rw [h1', h2'])
        rw [List.filter_cons_of_neg (by simpa using hcond)]
    · rw [if_neg hw, ih]
      have hcond : ¬(t.location = loc ∧ t.date = d ∧
          ep.episode_start ≤ t.date ∧ t.date ≤ ep.episode_end) := by
        rintro ⟨_, _, h3', h4'⟩
        exact hw ⟨h3', h4'⟩
      rw [List.filter_cons_of_neg (by simpa using hcond)]

lemma presence_count_general (ts : List Transfer) (loc : String) (d : Int)
    (e : String) :
    ∀ (eps : List InfectionEpisode) (idx0 : PresenceIndex),
      List.count e (lookupAssoc (eps.foldl (fun idx ep =>
        (ts.filter (fun t => decide (t.patient_id = ep.patient_id))).foldl
          (fun idx t =>
            if ep.episode_start ≤ t.date ∧ t.date ≤ ep.episode_end then
              updateAssoc idx (t.location, t.date) ep.episode_id
            else idx) idx) idx0) (loc, d)) =
      List.count e (lookupAssoc idx0 (loc, d)) +
        ((eps.filter (fun ep => decide (ep.episode_id = e))).map (fun ep =>
          (ts.filter (fun t => decide (t.patient_id = ep.patient_id ∧
            t.location = loc ∧ t.date = d ∧
            ep.episode_start ≤ t.date ∧ t.date ≤ ep.episode_end))).length)).sum
      := by
  intro eps
  induction eps with
  | nil => intro idx0; simp
  | cons ep eps ih =>
    intro idx0
    simp only [List.foldl_cons]
    rw [ih, inner_count]
    have hlen : (ts.filter (fun t => decide (t.patient_id = ep.patient_id ∧
        t.location = loc ∧ t.date = d ∧
        ep.episode_start ≤ t.date ∧ t.date ≤ ep.episode_end))).length =
        ((ts.filter (fun t => decide (t.patient_id = ep.patient_id))).filter
          (fun t => decide (t.location = loc ∧ t.date = d ∧
            ep.episode_start ≤ t.date ∧ t.date ≤ ep.episode_end))).length := by
      rw [List.filter_filter]
      congr 1
      apply List.filter_congr
      intro t _
      simp only [← Bool.decide_and]
      exact decide_eq_decide.mpr (by tauto)
    by_cases he : ep.episode_id = e
    · rw [List.filter_cons_of_pos (by simpa using he), List.map_cons,
        List.sum_cons, if_pos he.symm, hlen]
      omega
    · rw [List.filter_cons_of_neg (by simpa using he),
        if_neg (fun hh => he hh.symm)]
      omega

lemma updateAssoc_keys {κ α : Type} [DecidableEq κ]
    (m : List (κ × List α)) (k : κ) (v : α) :
    (updateAssoc m k v).map Prod.fst =
      if k ∈ m.map Prod.fst then m.map Prod.fst
      else m.map Prod.fst ++ [k] := by
  induction m with
  | nil => simp [updateAssoc]
  | cons kv rest ih =>
    obtain ⟨k', vs⟩ := kv
    by_cases h : k' = k
    · subst h
      simp [updateAssoc]
    · by_cases hk : k ∈ rest.map Prod.fst
      · simp [updateAssoc, h, ih, hk, List.mem_cons, Ne.symm h]
      · simp [updateAssoc, h, ih, hk, List.mem_cons, Ne.symm h]

lemma updateAssoc_keys_nodup {κ α : Type} [DecidableEq κ]
    (m : List (κ × List α)) (k : κ) (v : α)
    (h : (m.map Prod.fst).Nodup) :
    ((updateAssoc m k v).map Prod.fst).Nodup := by
  rw [updateAssoc_keys]
  by_cases hk : k ∈ m.map Prod.fst
  · simpa [hk] using h
  · rw [if_neg hk]
    rw [List.nodup_append]
    refine ⟨h, List.nodup_singleton k, fun a ha hb => ?_⟩
    rw [List.mem_singleton] at hb
    exact hk (hb ▸ ha)

lemma foldl_preserve {β σ : Type} (P : σ → Prop) (step : σ → β → σ)
    (hstep : ∀ s b, P s → P (step s b)) :
    ∀ (l : List β) (s0 : σ), P s0 → P (l.foldl step s0) := by
  intro l
  induction l with
  | nil => intro s0 h; exact h
  | cons b l ih => intro s0 h; exact ih _ (hstep s0 b h)

lemma presenceOf_keys_nodup (eps : List InfectionEpisode)
    (ts : List Transfer) :
    ((presenceOf eps ts).map Prod.fst).Nodup := by
  unfold presenceOf
  apply foldl_preserve (fun idx : PresenceIndex => (idx.map Prod.fst).Nodup)
  · intro idx ep h
    apply foldl_preserve (fun idx : PresenceIndex => (idx.map Prod.fst).Nodup)
    · intro idx2 t h2
      by_cases hw : ep.episode_start ≤ t.date ∧ t.date ≤ ep.episode_end
      · rw [if_pos hw]
        exact updateAssoc_keys_nodup idx2 (t.location, t.date) ep.episode_id h2
      · rwa [if_neg hw]
    · exact h
  · simp

lemma lookupAssoc_eq_of_mem {κ α : Type} [DecidableEq κ] :
    ∀ (m : List (κ × List α)), (m.map Prod.fst).Nodup →
      ∀ kv ∈ m, lookupAssoc m kv.1 = kv.2 := by
  intro m
  induction m with
  | nil => intro _ kv h; simp at h
  | cons p rest ih =>
    intro hN kv hkv
    obtain ⟨k', vs⟩ := p
    rw [List.map_cons, List.nodup_cons] at hN
    rcases List.mem_cons.mp hkv with rfl | hkv
    · simp [lookupAssoc]
    · have hmm := List.mem_map_of_mem Prod.fst hkv
      have hne : k' ≠ kv.1 := by
        intro he
        apply hN.1
        rw [he]
        exact hmm
      simpa [lookupAssoc, hne] using ih hN.2 kv hkv

lemma sum_map_ne_zero {β : Type} {l : List β} {f : β → Nat}
    (h : (l.map f).sum ≠ 0) : ∃ a ∈ l, f a ≠ 0 := by
  induction l with
  | nil => simp at h
  | cons b l ih =>
    rw [List.map_cons, List.sum_cons] at h
    by_cases hb : f b = 0
    · rw [hb, Nat.zero_add] at h
      obtain ⟨a, ha, hfa⟩ := ih h
      exact ⟨a, List.mem_cons_of_mem b ha, hfa⟩
    · exact ⟨b, List.mem_cons_self b l, hb⟩

/-- Soundness of the presence index: every id registered in a bucket is
the id of an episode of the list whose window contains the bucket's
date. -/
lemma presence_bucket_sound (eps : List InfectionEpisode)
    (ts : List Transfer) (kv : (String × Int) × List String)
    (hkv : kv ∈ presenceOf eps ts) :
    ∀ i ∈ kv.2, ∃ ep ∈ eps, ep.episode_id = i ∧
      ep.episode_start ≤ kv.1.2 ∧ kv.1.2 ≤ ep.episode_end := by
  intro i hi
  have hlk : lookupAssoc (presenceOf eps ts) kv.1 = kv.2 :=
    lookupAssoc_eq_of_mem _ (presenceOf_keys_nodup eps ts) kv hkv
  have hcount : 0 < List.count i (lookupAssoc (presenceOf eps ts)
      (kv.1.1, kv.1.2)) := by
    rw [Prod.mk.eta, hlk]
    exact List.count_pos_iff.mpr hi
  have hgen := presence_count_general ts kv.1.1 kv.1.2 i eps []
  unfold presenceOf at hcount
  rw [hgen] at hcount
  simp only [lookupAssoc, List.count_nil, Nat.zero_add] at hcount
  have hsum : ((eps.filter (fun ep => decide (ep.episode_id = i))).map
      (fun ep => (ts.filter (fun t => decide (t.patient_id = ep.patient_id ∧
        t.location = kv.1.1 ∧ t.date = kv.1.2 ∧
        ep.episode_start ≤ t.date ∧ t.date ≤ ep.episode_end))).length)).sum
      ≠ 0 := by omega
  obtain ⟨ep, hmem, hlen⟩ := sum_map_ne_zero hsum
  rw [List.mem_filter, decide_eq_true_eq] at hmem
  have hne : ts.filter (fun t => decide (t.patient_id = ep.patient_id ∧
      t.location = kv.1.1 ∧ t.date = kv.1.2 ∧
      ep.episode_start ≤ t.date ∧ t.date ≤ ep.episode_end)) ≠ [] := by
    intro hnil
    rw [hnil] at hlen
    simp at hlen
  obtain ⟨t, ht⟩ := List.exists_mem_of_ne_nil _ hne
  rw [List.mem_filter, decide_eq_true_eq] at ht
  obtain ⟨_, _, _, hd, hws, hwe⟩ := ht
  exact ⟨ep, hmem.1, hmem.2, by omega, by omega⟩

lemma filter_id_eq_singleton :
    ∀ (eps : List InfectionEpisode),
      ((eps.map (fun e' => e'.episode_id)).Nodup) →
      ∀ ep ∈ eps,
        eps.filter (fun e' => decide (e'.episode_id = ep.episode_id)) =
          [ep] := by
  intro eps
  induction eps with
  | nil => intro _ ep h; simp at h
  | cons a rest ih =>
    intro hN ep hep
    rw [List.map_cons, List.nodup_cons] at hN
    rcases List.mem_cons.mp hep with rfl | hep
    · rw [List.filter_cons_of_pos (by simp)]
      have : rest.filter (fun e' => decide (e'.episode_id = ep.episode_id))
          = [] := by
        rw [List.filter_eq_nil_iff]
        intro b hb
        simp only [decide_eq_true_eq]
        intro hid
        exact hN.1 (hid ▸ List.mem_map_of_mem _ hb)
      rw [this]
    · have hne : a.episode_id ≠ ep.episode_id := by
        intro he
        exact hN.1 (he ▸ List.mem_map_of_mem _ hep)
      rw [List.filter_cons_of_neg (by simpa using hne)]
      exact ih hN.2 ep hep

/-! ### Claim C5 -/

/-- C5: for every episode, `build_presence_index`'s core loop registers
the episode's identifier under `(location, date)` once per transfer row
of the same patient at that location on that in-window date — no
deduplication within a bucket. -/
theorem C5_presence_registration (episodes : List InfectionEpisode)
    (transfers : List Transfer)
    (hN : (episodes.map (fun ep => ep.episode_id)).Nodup)
    (ep : InfectionEpisode) (hep : ep ∈ episodes) (loc : String) (d : Int) :
    List.count ep.episode_id
        (lookupAssoc (presenceOf episodes transfers) (loc, d)) =
      (transfers.filter (fun t => decide (t.patient_id = ep.patient_id ∧
        t.location = loc ∧ t.date = d ∧
        ep.episode_start ≤ t.date ∧ t.date ≤ ep.episode_end))).length := by
  have hgen := presence_count_general transfers loc d ep.episode_id episodes []
  unfold presenceOf
  rw [hgen, filter_id_eq_singleton episodes hN ep hep]
  simp [lookupAssoc]

/-- A concrete episode and transfer table for the C5 witness. -/
def ep5 : InfectionEpisode :=
  { episode_id := "P1_CRE_EP001", patient_id := "P1",
    infection_type := "CRE", episode_number := 1,
    episode_start := 86, episode_end := 119, positive_tests := [100] }

def ts5 : List Transfer :=
  [{ patient_id := "P1", location := "WardA", date := 90 },
   { patient_id := "P1", location := "WardA", date := 90 },
   { patient_id := "P1", location := "WardB", date := 91 }]

/-- Witness for C5: a patient present twice at the same ward on the same
in-window day is registered twice in that bucket. -/
theorem C5_presence_registration_witness :
    List.count (InfectionEpisode.episode_id ep5)
        (lookupAssoc (presenceOf [ep5] ts5) ("WardA", 90)) = 2 :=
  (C5_presence_registration [ep5] ts5 (by decide) ep5 (by decide)
    "WardA" 90).trans (by decide)

/-! ### Claim C4 -/

lemma find?_id_eq :
    ∀ (l : List InfectionEpisode),
      ((l.map (fun e' => e'.episode_id)).Nodup) →
      ∀ ep ∈ l,
        l.find? (fun e' => decide (e'.episode_id = ep.episode_id)) =
          some ep := by
  intro l
  induction l with
  | nil => intro _ ep h; simp at h
  | cons a rest ih =>
    intro hN ep hep
    rw [List.map_cons, List.nodup_cons] at hN
    rcases List.mem_cons.mp hep with rfl | hep
    · rw [List.find?_cons_of_pos _ (by simp)]
    · have hmm := List.mem_map_of_mem (fun e' : InfectionEpisode =>
        e'.episode_id) hep
      have hne : a.episode_id ≠ ep.episode_id := by
        intro he
        apply hN.1
        rw [he]
        exact hmm
      rw [List.find?_cons_of_neg _ (by simpa using hne)]
      exact ih hN.2 ep hep

lemma epLookup_nodup (eps : List InfectionEpisode)
    (hN : (eps.map (fun e' => e'.episode_id)).Nodup)
    (ep : InfectionEpisode) (hep : ep ∈ eps) :
    epLookup eps ep.episode_id = some ep := by
  unfold epLookup
  apply find?_id_eq
  · rw [List.map_reverse]
    exact List.nodup_reverse.mpr hN
  · exact List.mem_reverse.mpr hep

lemma pairsFrom_mem {α : Type} :
    ∀ (l : List α) (pr : α × α), pr ∈ pairsFrom l → pr.1 ∈ l ∧ pr.2 ∈ l := by
  intro l
  induction l with
  | nil => intro pr h; simp [pairsFrom] at h
  | cons x xs ih =>
    intro pr h
    simp only [pairsFrom, List.mem_append] at h
    rcases h with h | h
    · obtain ⟨y, hy, rfl⟩ := List.mem_map.mp h
      exact ⟨List.mem_cons_self x xs, List.mem_cons_of_mem x hy⟩
    · obtain ⟨h1, h2⟩ := ih pr h
      exact ⟨List.mem_cons_of_mem x h1, List.mem_cons_of_mem x h2⟩

/-- The invariant C4 asserts of every emitted contact edge: both
endpoints name episodes of the list, with equal pathogen, overlapping
windows, and a contact date inside both windows. -/
def edgeInvariant (episodes : List InfectionEpisode) (e : ContactEdge) :
    Prop :=
  ∃ ep1 ∈ episodes, ∃ ep2 ∈ episodes,
    e.episode_a = ep1.episode_id ∧ e.episode_b = ep2.episode_id ∧
    ep1.infection_type = ep2.infection_type ∧
    ep1.overlaps_with ep2 = true ∧
    ep1.episode_start ≤ e.contact_date ∧ e.contact_date ≤ ep1.episode_end ∧
    ep2.episode_start ≤ e.contact_date ∧ e.contact_date ≤ ep2.episode_end

lemma contacts_pairs_sound (episodes : List InfectionEpisode)
    (hN : (episodes.map (fun e' => e'.episode_id)).Nodup)
    (loc : String) (d : Int) (ids : List String)
    (hids : ∀ i ∈ ids, ∃ ep ∈ episodes, ep.episode_id = i ∧
      ep.episode_start ≤ d ∧ d ≤ ep.episode_end) :
    ∀ (prs : List (String × String)),
      (∀ pr ∈ prs, pr.1 ∈ ids ∧ pr.2 ∈ ids) →
      ∀ (cs0 : List ContactEdge), (∀ e ∈ cs0, edgeInvariant episodes e) →
      ∃ out, (prs.foldlM (fun contacts pr => do
          let ep1 ← epLookup episodes pr.1
          let ep2 ← epLookup episodes pr.2
          if ep1.infection_type = ep2.infection_type ∧
              ep1.overlaps_with ep2 then
            pure (contacts ++ [{ episode_a := pr.1, episode_b := pr.2,
                                 contact_date := d, location := loc }])
          else pure contacts) cs0) = some out ∧
        ∀ e ∈ out, edgeInvariant episodes e := by
  intro prs
  induction prs with
  | nil => intro _ cs0 hcs; exact ⟨cs0, rfl, hcs⟩
  | cons pr prs ih =>
    intro hprs cs0 hcs
    obtain ⟨ep1, hep1, hid1, hw1s, hw1e⟩ :=
      hids pr.1 (hprs pr (List.mem_cons_self _ _)).1
    obtain ⟨ep2, hep2, hid2, hw2s, hw2e⟩ :=
      hids pr.2 (hprs pr (List.mem_cons_self _ _)).2
    have hlk1 : epLookup episodes pr.1 = some ep1 := by
      rw [← hid1]
      exact epLookup_nodup episodes hN ep1 hep1
    have hlk2 : epLookup episodes pr.2 = some ep2 := by
      rw [← hid2]
      exact epLookup_nodup episodes hN ep2 hep2
    rw [List.foldlM_cons]
    simp only [hlk1, hlk2, bind, Option.bind]
    by_cases hcond : ep1.infection_type = ep2.infection_type ∧
        ep1.overlaps_with ep2 = true
    · rw [if_pos (by exact ⟨hcond.1, hcond.2⟩)]
      simp only [pure]
      apply ih (fun pr' h => hprs pr' (List.mem_cons_of_mem _ h))
      intro e he
      rcases List.mem_append.mp he with he | he
      · exact hcs e he
      · rw [List.mem_singleton] at he
        subst he
        exact ⟨ep1, hep1, ep2, hep2, hid1.symm, hid2.symm, hcond.1,
          hcond.2, hw1s, hw1e, hw2s, hw2e⟩
    · rw [if_neg (by simpa using hcond)]
      simp only [pure]
      exact ih (fun pr' h => hprs pr' (List.mem_cons_of_mem _ h)) cs0 hcs

lemma detect_contacts_sound_aux (episodes : List InfectionEpisode)
    (hN : (episodes.map (fun e' => e'.episode_id)).Nodup) :
    ∀ (idx : PresenceIndex),
      (∀ kv ∈ idx, ∀ i ∈ kv.2, ∃ ep ∈ episodes, ep.episode_id = i ∧
        ep.episode_start ≤ kv.1.2 ∧ kv.1.2 ≤ ep.episode_end) →
      ∀ (cs0 : List ContactEdge), (∀ e ∈ cs0, edgeInvariant episodes e) →
      ∃ out, (idx.foldlM (fun contacts kv =>
          if kv.2.length < 2 then some contacts
          else (pairsFrom kv.2).foldlM (fun contacts pr => do
            let ep1 ← epLookup episodes pr.1
            let ep2 ← epLookup episodes pr.2
            if ep1.infection_type = ep2.infection_type ∧
                ep1.overlaps_with ep2 then
              pure (contacts ++ [{ episode_a := pr.1, episode_b := pr.2,
                                   contact_date := kv.1.2,
                                   location := kv.1.1 }])
            else pure contacts) contacts) cs0) = some out ∧
        ∀ e ∈ out, edgeInvariant episodes e := by
  intro idx
  induction idx with
  | nil => intro _ cs0 hcs; exact ⟨cs0, rfl, hcs⟩
  | cons kv idx ih =>
    intro hsound cs0 hcs
    rw [List.foldlM_cons]
    by_cases hlen : kv.2.length < 2
    · rw [if_pos hlen]
      simp only [bind, Option.bind]
      exact ih (fun kv' h => hsound kv' (List.mem_cons_of_mem _ h)) cs0 hcs
    · rw [if_neg hlen]
      obtain ⟨mid, hmid, hmidinv⟩ := contacts_pairs_sound episodes hN
        kv.1.1 kv.1.2 kv.2 (hsound kv (List.mem_cons_self _ _))
        (pairsFrom kv.2) (fun pr hpr => pairsFrom_mem kv.2 pr hpr) cs0 hcs
      rw [hmid]
      simp only [bind, Option.bind]
      exact ih (fun kv' h => hsound kv' (List.mem_cons_of_mem _ h))
        mid hmidinv

/-- C4: every contact edge emitted by `detect_contacts` over the
presence index built from the same episode list connects two episodes
of identical pathogen with overlapping windows, its contact date lies
inside both windows (inclusive), and no cross-pathogen edge appears. -/
theorem C4_contact_invariant (episodes : List InfectionEpisode)
    (transfers : List Transfer)
    (hN : (episodes.map (fun e' => e'.episode_id)).Nodup) :
    ∃ edges, detect_contacts (presenceOf episodes transfers) episodes =
        some edges ∧
      ∀ e ∈ edges, edgeInvariant episodes e := by
  unfold detect_contacts
  exact detect_contacts_sound_aux episodes hN
    (presenceOf episodes transfers)
    (fun kv hkv => presence_bucket_sound episodes transfers kv hkv)
    [] (by simp)

/-- The spec's two-patient CRE scenario, used by the C4 witness. -/
def ep4a : InfectionEpisode :=
  { episode_id := "P1_CRE_EP001", patient_id := "P1",
    infection_type := "CRE", episode_number := 1,
    episode_start := 86, episode_end := 119, positive_tests := [100, 105] }

def ep4b : InfectionEpisode :=
  { episode_id := "P2_CRE_EP001", patient_id := "P2",
    infection_type := "CRE", episode_number := 1,
    episode_start := 89, episode_end := 117, positive_tests := [103] }

def ts4 : List Transfer :=
  [{ patient_id := "P1", location := "WardA", date := 102 },
   { patient_id := "P2", location := "WardA", date := 102 }]

/-- Witness for C4 on the spec's scenario input. -/
theorem C4_contact_invariant_witness :
    ∃ edges, detect_contacts (presenceOf [ep4a, ep4b] ts4)
        [ep4a, ep4b] = some edges ∧
      ∀ e ∈ edges, edgeInvariant [ep4a, ep4b] e :=
  C4_contact_invariant [ep4a, ep4b] ts4 (by decide)

/-! ### Union-Find correctness (groundwork for Claims C1, C6, C9) -/

lemma mem_dedupFirst {α : Type} [DecidableEq α] :
    ∀ (l : List α) (x : α), x ∈ dedupFirst l ↔ x ∈ l := by
  intro l
  induction l with
  | nil => intro x; simp [dedupFirst]
  | cons a as ih =>
    intro x
    simp only [dedupFirst, List.mem_cons, List.mem_filter, ih,
      decide_eq_true_eq]
    constructor
    · rintro (rfl | ⟨h, _⟩)
      · exact Or.inl rfl
      · exact Or.inr h
    · rintro (rfl | h)
      · exact Or.inl rfl
      · by_cases hx : x = a
        · exact Or.inl hx
        · exact Or.inr ⟨h, hx⟩

lemma dedupFirst_nodup {α : Type} [DecidableEq α] :
    ∀ (l : List α), (dedupFirst l).Nodup := by
  intro l
  induction l with
  | nil => simp [dedupFirst]
  | cons a as ih =>
    simp only [dedupFirst, List.nodup_cons]
    refine ⟨?_, List.Nodup.filter _ ih⟩
    intro hmem
    rw [List.mem_filter] at hmem
    simp at hmem

lemma dedupFirst_length_le {α : Type} [DecidableEq α] :
    ∀ (l : List α), (dedupFirst l).length ≤ l.length := by
  intro l
  induction l with
  | nil => simp [dedupFirst]
  | cons a as ih =>
    simp only [dedupFirst, List.length_cons]
    have := List.length_filter_le (fun y => decide (y ≠ a)) (dedupFirst as)
    omega

lemma dedupFirst_eq_self {α : Type} [DecidableEq α] :
    ∀ (l : List α), l.Nodup → dedupFirst l = l := by
  intro l
  induction l with
  | nil => intro _; rfl
  | cons a as ih =>
    intro h
    rw [List.nodup_cons] at h
    simp only [dedupFirst, List.cons.injEq, true_and]
    rw [ih h.2]
    apply List.filter_eq_self.mpr
    intro b hb
    simp only [decide_eq_true_eq]
    intro hba
    exact h.1 (hba ▸ hb)

/-- `n`-fold application of a parent map. -/
def iterP {α : Type} (p : α → α) : Nat → α → α
  | 0, x => x
  | n + 1, x => iterP p n (p x)

/-- `x` reaches `r` by following parent pointers. -/
def Reaches {α : Type} (p : α → α) (x r : α) : Prop := ∃ n, iterP p n x = r

/-- `r` is its own parent. -/
def IsRoot {α : Type} (p : α → α) (r : α) : Prop := p r = r

/-- `r` is the root above `x`. -/
def RootOf {α : Type} (p : α → α) (x r : α) : Prop :=
  Reaches p x r ∧ IsRoot p r

/-- The invariant maintained by the Union-Find operations: the parent
map is the identity off the element list, closed on it, and parent
pointers carry strictly increasing rank (which forces acyclicity and
bounds every chain by the number of elements). -/
structure UFInv {α : Type} (s : List α) (p : α → α) (rk : α → Nat) :
    Prop where
  outside : ∀ x, x ∉ s → p x = x
  closed : ∀ x, x ∈ s → p x ∈ s
  rankLt : ∀ x, p x ≠ x → rk x < rk (p x)

lemma iterP_succ_out {α : Type} (p : α → α) :
    ∀ (n : Nat) (x : α), iterP p (n + 1) x = p (iterP p n x) := by
  intro n
  induction n with
  | zero => intro x; rfl
  | succ n ih =>
    intro x
    show iterP p (n + 1) (p x) = p (iterP p (n + 1) x)
    rw [ih (p x)]
    rfl

lemma iterP_add {α : Type} (p : α → α) :
    ∀ (m n : Nat) (x : α), iterP p (m + n) x = iterP p n (iterP p m x) := by
  intro m
  induction m with
  | zero =>
    intro n x
    rw [Nat.zero_add]
    rfl
  | succ m ih =>
    intro n x
    rw [Nat.succ_add]
    exact ih n (p x)

lemma iterP_of_root {α : Type} {p : α → α} {r : α} (h : IsRoot p r) :
    ∀ n, iterP p n r = r := by
  intro n
  induction n with
  | zero => rfl
  | succ n ih =>
    show iterP p n (p r) = r
    rw [h]
    exact ih

lemma reaches_refl {α : Type} (p : α → α) (x : α) : Reaches p x x := ⟨0, rfl⟩

lemma reaches_step {α : Type} (p : α → α) (x : α) : Reaches p x (p x) :=
  ⟨1, rfl⟩

lemma reaches_trans {α : Type} {p : α → α} {x y z : α}
    (h1 : Reaches p x y) (h2 : Reaches p y z) : Reaches p x z := by
  obtain ⟨m, hm⟩ := h1
  obtain ⟨n, hn⟩ := h2
  exact ⟨m + n, by rw [iterP_add, hm, hn]⟩

lemma rootOf_unique {α : Type} {p : α → α} {x r1 r2 : α}
    (h1 : RootOf p x r1) (h2 : RootOf p x r2) : r1 = r2 := by
  obtain ⟨⟨m, hm⟩, hr1⟩ := h1
  obtain ⟨⟨n, hn⟩, hr2⟩ := h2
  rcases Nat.le_total m n with h | h
  · obtain ⟨k, rfl⟩ := Nat.le.dest h
    rw [iterP_add, hm, iterP_of_root hr1] at hn
    exact hn
  · obtain ⟨k, rfl⟩ := Nat.le.dest h
    rw [iterP_add, hn, iterP_of_root hr2] at hm
    exact hm.symm

lemma reaches_closed {α : Type} {s : List α} {p : α → α} {rk : α → Nat}
    (inv : UFInv s p rk) :
    ∀ (n : Nat) (x : α), x ∈ s → iterP p n x ∈ s := by
  intro n
  induction n with
  | zero => intro x h; exact h
  | succ n ih =>
    intro x h
    exact ih (p x) (inv.closed x h)

lemma rank_le_iterP {α : Type} {s : List α} {p : α → α} {rk : α → Nat}
    (inv : UFInv s p rk) :
    ∀ (n : Nat) (x : α), rk x ≤ rk (iterP p n x) := by
  intro n
  induction n with
  | zero => intro x; exact le_rfl
  | succ n ih =>
    intro x
    by_cases h : p x = x
    · show rk x ≤ rk (iterP p n (p x))
      rw [h]
      exact ih x
    · exact le_trans (le_of_lt (inv.rankLt x h)) (ih (p x))

lemma rank_lt_iterP_ne {α : Type} {s : List α} {p : α → α} {rk : α → Nat}
    (inv : UFInv s p rk) :
    ∀ (n : Nat) (x : α), iterP p n x ≠ x → rk x < rk (iterP p n x) := by
  intro n
  induction n with
  | zero => intro x h; exact absurd rfl h
  | succ n ih =>
    intro x h
    by_cases hp : p x = x
    · have : iterP p (n + 1) x = iterP p n x := by
        show iterP p n (p x) = iterP p n x
        rw [hp]
      rw [this] at h ⊢
      exact ih x h
    · exact lt_of_lt_of_le (inv.rankLt x hp) (rank_le_iterP inv n (p x))

lemma rank_lt_of_rootOf_ne {α : Type} {s : List α} {p : α → α}
    {rk : α → Nat} (inv : UFInv s p rk) {z r : α} (h : Reaches p z r)
    (hne : z ≠ r) : rk z < rk r := by
  obtain ⟨n, hn⟩ := h
  have := rank_lt_iterP_ne inv n z (by rw [hn]; exact fun hh => hne hh.symm)
  rwa [hn] at this

/-- The decreasing measure for `find`'s recursion: the number of
distinct elements whose rank is at least the rank of `x`. -/
def budget {α : Type} [DecidableEq α] (s : List α) (rk : α → Nat)
    (x : α) : Nat :=
  ((dedupFirst s).filter (fun a => decide (rk x ≤ rk a))).length

lemma filter_length_mono {α : Type} (p q : α → Bool)
    (h : ∀ a, p a = true → q a = true) :
    ∀ (l : List α), (l.filter p).length ≤ (l.filter q).length := by
  intro l
  induction l with
  | nil => simp
  | cons a l ih =>
    by_cases ha : p a = true
    · rw [List.filter_cons_of_pos ha, List.filter_cons_of_pos (h a ha)]
      simpa using ih
    · rw [List.filter_cons_of_neg ha]
      by_cases hb : q a = true
      · rw [List.filter_cons_of_pos hb]
        exact le_trans ih (by simp)
      · rw [List.filter_cons_of_neg hb]
        exact ih

lemma filter_length_strict {α : Type} {p q : α → Bool}
    (h : ∀ a, p a = true → q a = true) :
    ∀ (l : List α) (x : α), x ∈ l → q x = true → ¬p x = true →
      (l.filter p).length < (l.filter q).length := by
  intro l
  induction l with
  | nil => intro x hx; simp at hx
  | cons a l ih =>
    intro x hx hq hp
    rcases List.mem_cons.mp hx with rfl | hx
    · rw [List.filter_cons_of_neg hp, List.filter_cons_of_pos hq,
        List.length_cons]
      exact Nat.lt_succ_of_le (filter_length_mono p q h l)
    · by_cases ha : p a = true
      · rw [List.filter_cons_of_pos ha, List.filter_cons_of_pos (h a ha),
          List.length_cons, List.length_cons]
        exact Nat.succ_lt_succ (ih x hx hq hp)
      · rw [List.filter_cons_of_neg ha]
        by_cases hb : q a = true
        · rw [List.filter_cons_of_pos hb, List.length_cons]
          exact Nat.lt_succ_of_le (le_of_lt (ih x hx hq hp))
        · rw [List.filter_cons_of_neg hb]
          exact ih x hx hq hp

lemma budget_le {α : Type} [DecidableEq α] (s : List α) (rk : α → Nat)
    (x : α) : budget s rk x ≤ s.length :=
  le_trans (List.length_filter_le _ _) (dedupFirst_length_le s)

lemma budget_pos {α : Type} [DecidableEq α] (s : List α) (rk : α → Nat)
    (x : α) (hx : x ∈ s) : 1 ≤ budget s rk x := by
  have hmem : x ∈ (dedupFirst s).filter (fun a => decide (rk x ≤ rk a)) := by
    rw [List.mem_filter]
    exact ⟨(mem_dedupFirst s x).mpr hx, by simp⟩
  exact List.length_pos.mpr (List.ne_nil_of_mem hmem)

lemma budget_step {α : Type} [DecidableEq α] {s : List α} {p : α → α}
    {rk : α → Nat} (inv : UFInv s p rk) (x : α) (hx : x ∈ s)
    (hne : p x ≠ x) : budget s rk (p x) < budget s rk x := by
  unfold budget
  apply filter_length_strict
  · intro a ha
    simp only [decide_eq_true_eq] at ha ⊢
    exact le_trans (le_of_lt (inv.rankLt x hne)) ha
  · exact (mem_dedupFirst s x).mpr hx
  · simp
  · simp only [decide_eq_true_eq]
    push_neg
    exact inv.rankLt x hne

lemma findAux_spec {α : Type} [DecidableEq α] {s : List α} {p : α → α}
    {rk : α → Nat} (inv : UFInv s p rk) :
    ∀ (fuel : Nat) (x : α), (x ∈ s → budget s rk x ≤ fuel) →
      RootOf p x (findAux p fuel x).1 ∧
      (∀ z, (findAux p fuel x).2 z = p z ∨
        (IsRoot p ((findAux p fuel x).2 z) ∧
          Reaches p z ((findAux p fuel x).2 z))) := by
  intro fuel
  induction fuel with
  | zero =>
    intro x hb
    by_cases hx : x ∈ s
    · have h1 := budget_pos s rk x hx
      have h2 := hb hx
      omega
    · have hroot : p x = x := inv.outside x hx
      exact ⟨⟨reaches_refl p x, hroot⟩, fun z => Or.inl rfl⟩
  | succ fuel ih =>
    intro x hb
    by_cases hroot : p x = x
    · rw [show findAux p (fuel + 1) x = (x, p) by simp [findAux, hroot]]
      exact ⟨⟨reaches_refl p x, hroot⟩, fun z => Or.inl rfl⟩
    · have hx : x ∈ s := by
        by_contra hxs
        exact hroot (inv.outside x hxs)
      have hbud : budget s rk (p x) ≤ fuel := by
        have h1 := budget_step inv x hx hroot
        have h2 := hb hx
        omega
      obtain ⟨hr, hmap⟩ := ih (p x) (fun _ => hbud)
      have heq : findAux p (fuel + 1) x =
          ((findAux p fuel (p x)).1,
           fun y => if y = x then (findAux p fuel (p x)).1
                    else (findAux p fuel (p x)).2 y) := by
        simp [findAux, hroot]
      rw [heq]
      refine ⟨⟨reaches_trans (reaches_step p x) hr.1, hr.2⟩, ?_⟩
      intro z
      by_cases hz : z = x
      · subst hz
        simp only [if_pos rfl]
        exact Or.inr ⟨hr.2, reaches_trans (reaches_step p z) hr.1⟩
      · simp only [if_neg hz]
        exact hmap z

/-- A compressed parent map: pointwise either unchanged or redirected to
a root reachable from the argument. -/
def MapChar {α : Type} (p p' : α → α) : Prop :=
  ∀ z, p' z = p z ∨ (IsRoot p (p' z) ∧ Reaches p z (p' z))

lemma exists_rootOf {α : Type} [DecidableEq α] {s : List α} {p : α → α}
    {rk : α → Nat} (inv : UFInv s p rk) (z : α) : ∃ r, RootOf p z r :=
  ⟨(findAux p s.length z).1,
   (findAux_spec inv s.length z (fun _ => budget_le s rk z)).1⟩

lemma mapChar_isRoot {α : Type} {p p' : α → α} (h : MapChar p p') :
    ∀ w, IsRoot p w ↔ IsRoot p' w := by
  intro w
  constructor
  · intro hw
    rcases h w with hc | ⟨_, hreach⟩
    · show p' w = w
      rw [hc]
      exact hw
    · obtain ⟨n, hn⟩ := hreach
      rw [iterP_of_root hw] at hn
      exact hn.symm
  · intro hw
    rcases h w with hc | ⟨hroot, _⟩
    · show p w = w
      rw [← hc]
      exact hw
    · have hh : IsRoot p (p' w) := hroot
      rw [hw] at hh
      exact hh

lemma mapChar_reaches {α : Type} {p p' : α → α} (h : MapChar p p') :
    ∀ (n : Nat) (z r : α), iterP p n z = r → IsRoot p r →
      Reaches p' z r := by
  intro n
  induction n with
  | zero =>
    intro z r hz _
    exact hz ▸ reaches_refl p' z
  | succ n ih =>
    intro z r hz hr
    by_cases hpz : p z = z
    · have hzz : iterP p n z = r := by
        rw [← hz]
        show iterP p n z = iterP p n (p z)
        rw [hpz]
      exact ih z r hzz hr
    · rcases h z with hc | ⟨hroot, hreach⟩
      · refine reaches_trans ⟨1, ?_⟩ (ih (p z) r hz hr)
        show p' z = p z
        exact hc
      · have h1 : RootOf p z r := ⟨⟨n + 1, hz⟩, hr⟩
        have h2 : RootOf p z (p' z) := ⟨hreach, hroot⟩
        have heq := rootOf_unique h2 h1
        exact heq ▸ reaches_step p' z

lemma mapChar_rootOf {α : Type} [DecidableEq α] {s : List α}
    {p p' : α → α} {rk : α → Nat} (inv : UFInv s p rk)
    (h : MapChar p p') :
    ∀ z r, RootOf p z r ↔ RootOf p' z r := by
  intro z r
  constructor
  · rintro ⟨⟨n, hn⟩, hr⟩
    exact ⟨mapChar_reaches h n z r hn hr, (mapChar_isRoot h r).mp hr⟩
  · intro h'
    obtain ⟨r0, hr0⟩ := exists_rootOf inv z
    obtain ⟨⟨n0, hn0⟩, hr0r⟩ := hr0
    have h0' : RootOf p' z r0 :=
      ⟨mapChar_reaches h n0 z r0 hn0 hr0r, (mapChar_isRoot h r0).mp hr0r⟩
    have heq := rootOf_unique h' h0'
    exact heq ▸ (⟨⟨n0, hn0⟩, hr0r⟩ : RootOf p z r0)

lemma mapChar_inv {α : Type} [DecidableEq α] {s : List α} {p p' : α → α}
    {rk : α → Nat} (inv : UFInv s p rk) (h : MapChar p p') :
    UFInv s p' rk := by
  constructor
  · intro x hx
    rcases h x with hc | ⟨_, hreach⟩
    · rw [hc]
      exact inv.outside x hx
    · obtain ⟨n, hn⟩ := hreach
      rw [iterP_of_root (inv.outside x hx)] at hn
      exact hn.symm
  · intro x hx
    rcases h x with hc | ⟨_, hreach⟩
    · rw [hc]
      exact inv.closed x hx
    · obtain ⟨n, hn⟩ := hreach
      rw [← hn]
      exact reaches_closed inv n x hx
  · intro x hne
    rcases h x with hc | ⟨_, hreach⟩
    · rw [hc] at hne ⊢
      exact inv.rankLt x hne
    · exact rank_lt_of_rootOf_ne inv hreach (fun he => hne (he ▸ rfl))

/-- Two elements lie under one root. -/
def sameRootP {α : Type} (p : α → α) (z w : α) : Prop :=
  ∃ r, RootOf p z r ∧ RootOf p w r

lemma sameRootP_refl {α : Type} [DecidableEq α] {s : List α} {p : α → α}
    {rk : α → Nat} (inv : UFInv s p rk) (z : α) : sameRootP p z z := by
  obtain ⟨r, hr⟩ := exists_rootOf inv z
  exact ⟨r, hr, hr⟩

lemma sameRootP_symm {α : Type} {p : α → α} {z w : α}
    (h : sameRootP p z w) : sameRootP p w z := by
  obtain ⟨r, h1, h2⟩ := h
  exact ⟨r, h2, h1⟩

lemma sameRootP_trans {α : Type} {p : α → α} {z w v : α}
    (h1 : sameRootP p z w) (h2 : sameRootP p w v) : sameRootP p z v := by
  obtain ⟨r, hz, hw⟩ := h1
  obtain ⟨r', hw', hv⟩ := h2
  rw [rootOf_unique hw hw'] at hz
  exact ⟨r', hz, hv⟩

lemma mapChar_sameRootP {α : Type} [DecidableEq α] {s : List α}
    {p p' : α → α} {rk : α → Nat} (inv : UFInv s p rk)
    (h : MapChar p p') :
    ∀ z w, sameRootP p z w ↔ sameRootP p' z w := by
  intro z w
  constructor
  · rintro ⟨r, h1, h2⟩
    exact ⟨r, (mapChar_rootOf inv h z r).mp h1,
      (mapChar_rootOf inv h w r).mp h2⟩
  · rintro ⟨r, h1, h2⟩
    exact ⟨r, (mapChar_rootOf inv h z r).mpr h1,
      (mapChar_rootOf inv h w r).mpr h2⟩

lemma link_rootOf {α : Type} [DecidableEq α] {p : α → α} {L R : α}
    (hL : IsRoot p L) (hR : IsRoot p R) (hLR : L ≠ R) :
    ∀ z r, RootOf p z r →
      RootOf (fun w => if w = L then R else p w) z
        (if r = L then R else r) := by
  have hR3 : IsRoot (fun w => if w = L then R else p w) R := by
    show (if R = L then R else p R) = R
    rw [if_neg (fun h => hLR h.symm)]
    exact hR
  rintro z r ⟨⟨n, hn⟩, hr⟩
  by_cases hrL : r = L
  · rw [if_pos hrL]
    rw [hrL] at hn
    have hzz : Reaches (fun w => if w = L then R else p w) z L := by
      clear hr
      induction n generalizing z with
      | zero =>
        rw [← hn]
        exact reaches_refl _ z
      | succ n ih =>
        by_cases hzL : z = L
        · rw [hzL]
          exact reaches_refl _ L
        · refine reaches_trans ⟨1, ?_⟩ (ih (p z) hn)
          show (if z = L then R else p z) = p z
          rw [if_neg hzL]
    refine ⟨reaches_trans hzz ⟨1, ?_⟩, hR3⟩
    show (if L = L then R else p L) = R
    rw [if_pos rfl]
  · refine ⟨?_, ?_⟩
    · rw [if_neg hrL]
      induction n generalizing z with
      | zero =>
        rw [← hn]
        exact reaches_refl _ z
      | succ n ih =>
        have hzL : z ≠ L := by
          intro hz
          subst hz
          rw [iterP_of_root hL] at hn
          exact hrL hn.symm
        refine reaches_trans ⟨1, ?_⟩ (ih (p z) hn)
        show (if z = L then R else p z) = p z
        rw [if_neg hzL]
    · rw [if_neg hrL]
      show (if r = L then R else p r) = r
      rw [if_neg hrL]
      exact hr

lemma subst_eq_iff {α : Type} [DecidableEq α] (L R a b : α) (hLR : L ≠ R) :
    ((if a = L then R else a) = (if b = L then R else b)) ↔
      (a = b ∨ (a = L ∧ b = R) ∨ (b = L ∧ a = R)) := by
  by_cases ha : a = L
  · by_cases hb : b = L
    · subst ha
      subst hb
      simp
    · subst ha
      rw [if_pos rfl, if_neg hb]
      constructor
      · intro h
        exact Or.inr (Or.inl ⟨rfl, h.symm⟩)
      · rintro (h | ⟨_, h⟩ | ⟨h, _⟩)
        · exact absurd h.symm hb
        · exact h.symm
        · exact absurd h hb
  · by_cases hb : b = L
    · subst hb
      rw [if_neg ha, if_pos rfl]
      constructor
      · intro h
        exact Or.inr (Or.inr ⟨rfl, h⟩)
      · rintro (h | ⟨h, _⟩ | ⟨_, h⟩)
        · exact absurd h ha
        · exact absurd h ha
        · exact h
    · rw [if_neg ha, if_neg hb]
      constructor
      · intro h
        exact Or.inl h
      · rintro (h | ⟨h, _⟩ | ⟨h, _⟩)
        · exact h
        · exact absurd h ha
        · exact absurd h hb

lemma link_inv {α : Type} [DecidableEq α] {s : List α} {p : α → α}
    {rk : α → Nat} (inv : UFInv s p rk) {L R : α}
    (hR : IsRoot p R) (hLR : L ≠ R) (hLs : L ∈ s) (hRs : R ∈ s)
    (rk3 : α → Nat)
    (hrk3 : (rk L < rk R ∧ rk3 = rk) ∨
      (rk L = rk R ∧ rk3 = fun w => if w = R then rk R + 1 else rk w)) :
    UFInv s (fun w => if w = L then R else p w) rk3 := by
  have hbump : ∀ w, rk w ≤ rk3 w := by
    intro w
    rcases hrk3 with ⟨_, rfl⟩ | ⟨_, rfl⟩
    · exact le_rfl
    · by_cases hw : w = R
      · subst hw
        simp
      · simp [hw]
  have hother : ∀ w, w ≠ R → rk3 w = rk w := by
    intro w hw
    rcases hrk3 with ⟨_, rfl⟩ | ⟨_, rfl⟩
    · rfl
    · simp [hw]
  constructor
  · intro v hv
    have hvL : v ≠ L := fun h => hv (h ▸ hLs)
    show (if v = L then R else p v) = v
    rw [if_neg hvL]
    exact inv.outside v hv
  · intro v hv
    show (if v = L then R else p v) ∈ s
    by_cases hvL : v = L
    · rw [if_pos hvL]
      exact hRs
    · rw [if_neg hvL]
      exact inv.closed v hv
  · intro v hne
    by_cases hvL : v = L
    · have hpv : (if v = L then R else p v) = R := if_pos hvL
      rw [hpv] at hne ⊢
      have hvR : v ≠ R := fun h => hLR ((hvL.symm.trans h).symm ▸ rfl)
      rw [hother v (by rw [hvL]; exact hLR)]
      rw [hvL]
      rcases hrk3 with ⟨hlt, rfl⟩ | ⟨heq, rfl⟩
      · exact hlt
      · show rk L < if R = R then rk R + 1 else rk R
        rw [if_pos rfl]
        omega
    · have hpv : (if v = L then R else p v) = p v := if_neg hvL
      rw [hpv] at hne ⊢
      have hbase := inv.rankLt v hne
      have hvR : v ≠ R := by
        intro h
        rw [h] at hne
        exact hne hR
      rw [hother v hvR]
      exact lt_of_lt_of_le hbase (hbump (p v))

/-- The effect of one union on the same-root relation: related before,
or related through the two unioned elements. -/
def addPair {α : Type} (R : α → α → Prop) (x y z w : α) : Prop :=
  R z w ∨ (R z x ∧ R y w) ∨ (R z y ∧ R x w)

lemma addPair_collapse {α : Type} {R : α → α → Prop}
    (hsymm : ∀ a b, R a b → R b a)
    (htrans : ∀ a b c, R a b → R b c → R a c)
    {x y : α} (hxy : R x y) :
    ∀ z w, addPair R x y z w ↔ R z w := by
  intro z w
  constructor
  · rintro (h | ⟨h1, h2⟩ | ⟨h1, h2⟩)
    · exact h
    · exact htrans _ _ _ (htrans _ _ _ h1 hxy) h2
    · exact htrans _ _ _ (htrans _ _ _ h1 (hsymm _ _ hxy)) h2
  · intro h
    exact Or.inl h

lemma rootDisj_addPair {α : Type} [DecidableEq α] {p : α → α}
    {x y rx ry a b : α} (hrx : RootOf p x rx) (hry : RootOf p y ry)
    (hab : (a = rx ∧ b = ry) ∨ (a = ry ∧ b = rx)) :
    ∀ z w, (∃ rz rw, RootOf p z rz ∧ RootOf p w rw ∧
        (rz = rw ∨ (rz = a ∧ rw = b) ∨ (rw = a ∧ rz = b))) ↔
      addPair (sameRootP p) x y z w := by
  intro z w
  constructor
  · rintro ⟨rz, rw', hz, hw, hd⟩
    rcases hab with ⟨rfl, rfl⟩ | ⟨rfl, rfl⟩
    · rcases hd with rfl | ⟨rfl, rfl⟩ | ⟨rfl, rfl⟩
      · exact Or.inl ⟨rz, hz, hw⟩
      · exact Or.inr (Or.inl ⟨⟨rz, hz, hrx⟩, ⟨rw', hry, hw⟩⟩)
      · exact Or.inr (Or.inr ⟨⟨rz, hz, hry⟩, ⟨rw', hrx, hw⟩⟩)
    · rcases hd with rfl | ⟨rfl, rfl⟩ | ⟨rfl, rfl⟩
      · exact Or.inl ⟨rz, hz, hw⟩
      · exact Or.inr (Or.inr ⟨⟨rz, hz, hry⟩, ⟨rw', hrx, hw⟩⟩)
      · exact Or.inr (Or.inl ⟨⟨rz, hz, hrx⟩, ⟨rw', hry, hw⟩⟩)
  · rintro (⟨r, hz, hw⟩ | ⟨⟨r1, hz, hx1⟩, ⟨r2, hy2, hw⟩⟩ |
      ⟨⟨r1, hz, hy1⟩, ⟨r2, hx2, hw⟩⟩)
    · exact ⟨r, r, hz, hw, Or.inl rfl⟩
    · have e1 : r1 = rx := rootOf_unique hx1 hrx
      have e2 : r2 = ry := rootOf_unique hy2 hry
      rcases hab with ⟨ha, hb⟩ | ⟨ha, hb⟩
      · exact ⟨r1, r2, hz, hw,
          Or.inr (Or.inl ⟨e1.trans ha.symm, e2.trans hb.symm⟩)⟩
      · exact ⟨r1, r2, hz, hw,
          Or.inr (Or.inr ⟨e2.trans ha.symm, e1.trans hb.symm⟩)⟩
    · have e1 : r1 = ry := rootOf_unique hy1 hry
      have e2 : r2 = rx := rootOf_unique hx2 hrx
      rcases hab with ⟨ha, hb⟩ | ⟨ha, hb⟩
      · exact ⟨r1, r2, hz, hw,
          Or.inr (Or.inr ⟨e2.trans ha.symm, e1.trans hb.symm⟩)⟩
      · exact ⟨r1, r2, hz, hw,
          Or.inr (Or.inl ⟨e1.trans ha.symm, e2.trans hb.symm⟩)⟩

lemma find_spec {α : Type} [DecidableEq α] (uf : UnionFind α)
    (inv : UFInv uf.elems uf.parent uf.rank) (x : α) :
    RootOf uf.parent x (uf.find x).1 ∧
    MapChar uf.parent (uf.find x).2.parent ∧
    (uf.find x).2.elems = uf.elems ∧ (uf.find x).2.rank = uf.rank := by
  obtain ⟨h1, h2⟩ := findAux_spec inv uf.elems.length x
    (fun _ => budget_le uf.elems uf.rank x)
  exact ⟨h1, h2, rfl, rfl⟩

lemma link_sameRootP {α : Type} [DecidableEq α] {s : List α}
    {p : α → α} {rk : α → Nat} (inv : UFInv s p rk) {L R : α}
    (hL : IsRoot p L) (hR : IsRoot p R) (hLR : L ≠ R) :
    ∀ z w, sameRootP (fun v => if v = L then R else p v) z w ↔
      (∃ rz rw, RootOf p z rz ∧ RootOf p w rw ∧
        (rz = rw ∨ (rz = L ∧ rw = R) ∨ (rw = L ∧ rz = R))) := by
  intro z w
  constructor
  · rintro ⟨r3, h3z, h3w⟩
    obtain ⟨rz, hrz⟩ := exists_rootOf inv z
    obtain ⟨rw1, hrw⟩ := exists_rootOf inv w
    have h1 := link_rootOf hL hR hLR z rz hrz
    have h2 := link_rootOf hL hR hLR w rw1 hrw
    have e1 := rootOf_unique h3z h1
    have e2 := rootOf_unique h3w h2
    refine ⟨rz, rw1, hrz, hrw, ?_⟩
    rw [← subst_eq_iff L R rz rw1 hLR, ← e1, ← e2]
  · rintro ⟨rz, rw1, hrz, hrw, hd⟩
    have h1 := link_rootOf hL hR hLR z rz hrz
    have h2 := link_rootOf hL hR hLR w rw1 hrw
    have he : (if rz = L then R else rz) = (if rw1 = L then R else rw1) :=
      (subst_eq_iff L R rz rw1 hLR).mpr hd
    refine ⟨(if rz = L then R else rz), h1, ?_⟩
    rw [he]
    exact h2

lemma addPair_congr {α : Type} {R S : α → α → Prop}
    (h : ∀ a b, R a b ↔ S a b) (x y z w : α) :
    addPair R x y z w ↔ addPair S x y z w := by
  unfold addPair
  simp only [h]

lemma union_spec {α : Type} [DecidableEq α] (uf : UnionFind α)
    (inv : UFInv uf.elems uf.parent uf.rank) (x y : α)
    (hx : x ∈ uf.elems) (hy : y ∈ uf.elems) :
    (uf.union x y).elems = uf.elems ∧
    UFInv (uf.union x y).elems (uf.union x y).parent (uf.union x y).rank ∧
    (∀ z w, sameRootP (uf.union x y).parent z w ↔
      addPair (sameRootP uf.parent) x y z w) := by
  obtain ⟨hrx, hmc1, hel1, hrk1⟩ := find_spec uf inv x
  have inv1 : UFInv uf.elems (uf.find x).2.parent uf.rank :=
    mapChar_inv inv hmc1
  have inv1' : UFInv (uf.find x).2.elems (uf.find x).2.parent
      (uf.find x).2.rank := by
    rw [hel1, hrk1]
    exact inv1
  obtain ⟨hry1, hmc2, hel2, hrk2⟩ := find_spec (uf.find x).2 inv1' y
  have hIff1 := mapChar_rootOf inv hmc1
  have hIff2 := mapChar_rootOf inv1 hmc2
  have hry : RootOf uf.parent y ((uf.find x).2.find y).1 :=
    (hIff1 y _).mpr hry1
  have inv2 : UFInv uf.elems ((uf.find x).2.find y).2.parent uf.rank :=
    mapChar_inv inv1 hmc2
  have hsame1 := mapChar_sameRootP inv hmc1
  have hsame2 := mapChar_sameRootP inv1 hmc2
  have heleq : ((uf.find x).2.find y).2.elems = uf.elems := by
    rw [show ((uf.find x).2.find y).2.elems = (uf.find x).2.elems from rfl,
      hel1]
  have hrkeq : ((uf.find x).2.find y).2.rank = uf.rank := by
    rw [show ((uf.find x).2.find y).2.rank = (uf.find x).2.rank from rfl,
      hrk1]
  have hr2x : RootOf ((uf.find x).2.find y).2.parent x (uf.find x).1 :=
    (hIff2 x _).mp ((hIff1 x _).mp hrx)
  have hr2y : RootOf ((uf.find x).2.find y).2.parent y
      ((uf.find x).2.find y).1 :=
    (hIff2 y _).mp hry1
  have hsamec : ∀ z w, sameRootP uf.parent z w ↔
      sameRootP ((uf.find x).2.find y).2.parent z w := fun z w =>
    (hsame1 z w).trans (hsame2 z w)
  set rx := (uf.find x).1 with hrxdef
  set ry := ((uf.find x).2.find y).1 with hrydef
  set uf2 := ((uf.find x).2.find y).2 with huf2def
  have hu0 : uf.union x y =
      (if rx = ry then uf2
       else
         { elems := uf2.elems
           parent := fun z =>
             if z = (if uf2.rank rx < uf2.rank ry then (ry, rx)
                     else (rx, ry)).2
             then (if uf2.rank rx < uf2.rank ry then (ry, rx)
                   else (rx, ry)).1
             else uf2.parent z
           rank :=
             if uf2.rank (if uf2.rank rx < uf2.rank ry then (ry, rx)
                          else (rx, ry)).1 =
                uf2.rank (if uf2.rank rx < uf2.rank ry then (ry, rx)
                          else (rx, ry)).2
             then fun z =>
               if z = (if uf2.rank rx < uf2.rank ry then (ry, rx)
                       else (rx, ry)).1
               then uf2.rank (if uf2.rank rx < uf2.rank ry then (ry, rx)
                              else (rx, ry)).1 + 1
               else uf2.rank z
             else uf2.rank }) := rfl
  by_cases hroots : rx = ry
  · rw [hu0, if_pos hroots]
    refine ⟨heleq, by rw [heleq, hrkeq]; exact inv2, ?_⟩
    intro z w
    rw [← hsamec z w]
    have hxy : sameRootP uf.parent x y := by
      refine ⟨rx, hrx, ?_⟩
      rw [hroots]
      exact hry
    rw [@addPair_collapse α (sameRootP uf.parent)
      (fun a b h => sameRootP_symm h)
      (fun a b c h1 h2 => sameRootP_trans h1 h2) x y hxy z w]
  · have hLxs : rx ∈ uf.elems := by
      obtain ⟨⟨n, hn⟩, _⟩ := hrx
      rw [← hn]
      exact reaches_closed inv n x hx
    have hLys : ry ∈ uf.elems := by
      obtain ⟨⟨n, hn⟩, _⟩ := hry
      rw [← hn]
      exact reaches_closed inv n y hy
    have hrynex : ry ≠ rx := fun h => hroots h.symm
    have hirx : IsRoot uf2.parent rx := hr2x.2
    have hiry : IsRoot uf2.parent ry := hr2y.2
    rw [hu0, if_neg hroots]
    by_cases hswap : uf2.rank rx < uf2.rank ry
    · rw [if_pos hswap]
      have hcond : ¬(uf2.rank (ry, rx).1 = uf2.rank (ry, rx).2) := by
        simp only
        omega
      rw [if_neg hcond]
      have hrrk : uf.rank rx < uf.rank ry := by
        rw [← hrkeq]
        exact hswap
      have hinv3 : UFInv uf.elems
          (fun z => if z = rx then ry else uf2.parent z) uf.rank :=
        link_inv inv2 hiry hroots hLxs hLys uf.rank (Or.inl ⟨hrrk, rfl⟩)
      refine ⟨heleq, ?_, ?_⟩
      · show UFInv uf2.elems
          (fun z => if z = (ry, rx).2 then (ry, rx).1 else uf2.parent z)
          uf2.rank
        rw [heleq, hrkeq]
        exact hinv3
      · intro z w
        show sameRootP
          (fun z => if z = (ry, rx).2 then (ry, rx).1 else uf2.parent z)
          z w ↔ _
        rw [show (fun z => if z = (ry, rx).2 then (ry, rx).1
              else uf2.parent z) =
            (fun z => if z = rx then ry else uf2.parent z) from rfl]
        rw [link_sameRootP inv2 hirx hiry hroots z w]
        rw [rootDisj_addPair hr2x hr2y (Or.inl ⟨rfl, rfl⟩) z w]
        exact (addPair_congr hsamec x y z w).symm
    · rw [if_neg hswap]
      by_cases hcond : uf2.rank (rx, ry).1 = uf2.rank (rx, ry).2
      · rw [if_pos hcond]
        have hcond2 : uf2.rank rx = uf2.rank ry := hcond
        have hrrk : uf.rank ry = uf.rank rx := by
          rw [← hrkeq]
          omega
        have hinv3 : UFInv uf.elems
            (fun z => if z = ry then rx else uf2.parent z)
            (fun z => if z = rx then uf.rank rx + 1 else uf.rank z) :=
          link_inv inv2 hirx hrynex hLys hLxs
            (fun z => if z = rx then uf.rank rx + 1 else uf.rank z)
            (Or.inr ⟨hrrk, rfl⟩)
        refine ⟨heleq, ?_, ?_⟩
        · show UFInv uf2.elems
            (fun z => if z = (rx, ry).2 then (rx, ry).1 else uf2.parent z)
            (fun z => if z = (rx, ry).1 then uf2.rank (rx, ry).1 + 1
                      else uf2.rank z)
          rw [heleq]
          rw [show (fun z => if z = (rx, ry).2 then (rx, ry).1
                else uf2.parent z) =
              (fun z => if z = ry then rx else uf2.parent z) from rfl]
          rw [show (fun z => if z = (rx, ry).1 then uf2.rank (rx, ry).1 + 1
                else uf2.rank z) =
              (fun z => if z = rx then uf2.rank rx + 1 else uf2.rank z)
              from rfl]
          rw [show uf2.rank = uf.rank from hrkeq]
          exact hinv3
        · intro z w
          show sameRootP
            (fun z => if z = (rx, ry).2 then (rx, ry).1 else uf2.parent z)
            z w ↔ _
          rw [show (fun z => if z = (rx, ry).2 then (rx, ry).1
                else uf2.parent z) =
              (fun z => if z = ry then rx else uf2.parent z) from rfl]
          rw [link_sameRootP inv2 hiry hirx hrynex z w]
          rw [rootDisj_addPair hr2x hr2y (Or.inr ⟨rfl, rfl⟩) z w]
          exact (addPair_congr hsamec x y z w).symm
      · rw [if_neg hcond]
        have hcond2 : ¬(uf2.rank rx = uf2.rank ry) := hcond
        have hrrk : uf.rank ry < uf.rank rx := by
          rw [← hrkeq]
          omega
        have hinv3 : UFInv uf.elems
            (fun z => if z = ry then rx else uf2.parent z) uf.rank :=
          link_inv inv2 hirx hrynex hLys hLxs uf.rank (Or.inl ⟨hrrk, rfl⟩)
        refine ⟨heleq, ?_, ?_⟩
        · show UFInv uf2.elems
            (fun z => if z = (rx, ry).2 then (rx, ry).1 else uf2.parent z)
            uf2.rank
          rw [heleq, hrkeq]
          rw [show (fun z => if z = (rx, ry).2 then (rx, ry).1
                else uf2.parent z) =
              (fun z => if z = ry then rx else uf2.parent z) from rfl]
          exact hinv3
        · intro z w
          show sameRootP
            (fun z => if z = (rx, ry).2 then (rx, ry).1 else uf2.parent z)
            z w ↔ _
          rw [show (fun z => if z = (rx, ry).2 then (rx, ry).1
                else uf2.parent z) =
              (fun z => if z = ry then rx else uf2.parent z) from rfl]
          rw [link_sameRootP inv2 hiry hirx hrynex z w]
          rw [rootDisj_addPair hr2x hr2y (Or.inr ⟨rfl, rfl⟩) z w]
          exact (addPair_congr hsamec x y z w).symm

lemma eqvGen_mono_into {α : Type} {r s : α → α → Prop}
    (h : ∀ a b, r a b → Relation.EqvGen s a b) :
    ∀ a b, Relation.EqvGen r a b → Relation.EqvGen s a b := by
  intro a b hab
  induction hab with
  | rel a b hr => exact h a b hr
  | refl a => exact Relation.EqvGen.refl a
  | symm a b _ ih => exact Relation.EqvGen.symm a b ih
  | trans a b c _ _ ih1 ih2 => exact Relation.EqvGen.trans a b c ih1 ih2

lemma addPair_equivalence {α : Type} {R : α → α → Prop}
    (h : Equivalence R) (x y : α) : Equivalence (addPair R x y) := by
  constructor
  · intro a
    exact Or.inl (h.refl a)
  · intro a b hab
    rcases hab with h1 | ⟨h1, h2⟩ | ⟨h1, h2⟩
    · exact Or.inl (h.symm h1)
    · exact Or.inr (Or.inr ⟨h.symm h2, h.symm h1⟩)
    · exact Or.inr (Or.inl ⟨h.symm h2, h.symm h1⟩)
  · intro a b c hab hbc
    rcases hab with h1 | ⟨h1, h2⟩ | ⟨h1, h2⟩ <;>
      rcases hbc with g1 | ⟨g1, g2⟩ | ⟨g1, g2⟩
    · exact Or.inl (h.trans h1 g1)
    · exact Or.inr (Or.inl ⟨h.trans h1 g1, g2⟩)
    · exact Or.inr (Or.inr ⟨h.trans h1 g1, g2⟩)
    · exact Or.inr (Or.inl ⟨h1, h.trans h2 g1⟩)
    · exact Or.inr (Or.inl ⟨h1, g2⟩)
    · exact Or.inl (h.trans h1 g2)
    · exact Or.inr (Or.inr ⟨h1, h.trans h2 g1⟩)
    · exact Or.inl (h.trans h1 g2)
    · exact Or.inr (Or.inr ⟨h1, g2⟩)

lemma eqvGen_step_iff {α : Type} {R : α → α → Prop} (hEq : Equivalence R)
    (e : α × α) (edges : List (α × α)) :
    ∀ z w,
      Relation.EqvGen (fun a b => addPair R e.1 e.2 a b ∨
        (a, b) ∈ edges ∨ (b, a) ∈ edges) z w ↔
      Relation.EqvGen (fun a b => R a b ∨
        (a, b) ∈ e :: edges ∨ (b, a) ∈ e :: edges) z w := by
  have hedge : Relation.EqvGen (fun a b => R a b ∨
      (a, b) ∈ e :: edges ∨ (b, a) ∈ e :: edges) e.1 e.2 := by
    apply Relation.EqvGen.rel
    refine Or.inr (Or.inl ?_)
    rw [Prod.mk.eta]
    exact List.mem_cons_self e edges
  intro z w
  constructor
  · apply eqvGen_mono_into
    intro a b hab
    rcases hab with hap | hm | hm
    · rcases hap with h1 | ⟨h1, h2⟩ | ⟨h1, h2⟩
      · exact Relation.EqvGen.rel a b (Or.inl h1)
      · refine Relation.EqvGen.trans a e.1 b
          (Relation.EqvGen.rel _ _ (Or.inl h1)) ?_
        exact Relation.EqvGen.trans e.1 e.2 b hedge
          (Relation.EqvGen.rel _ _ (Or.inl h2))
      · refine Relation.EqvGen.trans a e.2 b
          (Relation.EqvGen.rel _ _ (Or.inl h1)) ?_
        exact Relation.EqvGen.trans e.2 e.1 b
          (Relation.EqvGen.symm _ _ hedge)
          (Relation.EqvGen.rel _ _ (Or.inl h2))
    · exact Relation.EqvGen.rel a b
        (Or.inr (Or.inl (List.mem_cons_of_mem e hm)))
    · exact Relation.EqvGen.rel a b
        (Or.inr (Or.inr (List.mem_cons_of_mem e hm)))
  · apply eqvGen_mono_into
    intro a b hab
    rcases hab with h1 | hm | hm
    · exact Relation.EqvGen.rel a b (Or.inl (Or.inl h1))
    · rcases List.mem_cons.mp hm with he | hm
      · have ha : a = e.1 := congrArg Prod.fst he
        have hb : b = e.2 := congrArg Prod.snd he
        refine Relation.EqvGen.rel a b (Or.inl (Or.inr (Or.inl ⟨?_, ?_⟩)))
        · rw [ha]
          exact hEq.refl e.1
        · rw [hb]
          exact hEq.refl e.2
      · exact Relation.EqvGen.rel a b (Or.inr (Or.inl hm))
    · rcases List.mem_cons.mp hm with he | hm
      · have hb : b = e.1 := congrArg Prod.fst he
        have ha : a = e.2 := congrArg Prod.snd he
        refine Relation.EqvGen.rel a b
          (Or.inl (Or.inr (Or.inr ⟨?_, ?_⟩)))
        · rw [ha]
          exact hEq.refl e.2
        · rw [hb]
          exact hEq.refl e.1
      · exact Relation.EqvGen.rel a b (Or.inr (Or.inr hm))

lemma fold_union_spec {α : Type} [DecidableEq α] :
    ∀ (edges : List (α × α)) (uf : UnionFind α) (R : α → α → Prop),
      UFInv uf.elems uf.parent uf.rank →
      (∀ e ∈ edges, e.1 ∈ uf.elems ∧ e.2 ∈ uf.elems) →
      Equivalence R →
      (∀ z w, sameRootP uf.parent z w ↔ R z w) →
      (edges.foldl (fun u e => u.union e.1 e.2) uf).elems = uf.elems ∧
      UFInv (edges.foldl (fun u e => u.union e.1 e.2) uf).elems
        (edges.foldl (fun u e => u.union e.1 e.2) uf).parent
        (edges.foldl (fun u e => u.union e.1 e.2) uf).rank ∧
      (∀ z w,
        sameRootP (edges.foldl (fun u e => u.union e.1 e.2) uf).parent z w
          ↔ Relation.EqvGen (fun a b => R a b ∨
              (a, b) ∈ edges ∨ (b, a) ∈ edges) z w) := by
  intro edges
  induction edges with
  | nil =>
    intro uf R inv hE hEq hBase
    refine ⟨rfl, inv, ?_⟩
    intro z w
    rw [List.foldl_nil, hBase z w]
    constructor
    · intro h
      exact Relation.EqvGen.rel z w (Or.inl h)
    · intro h
      refine (hEq.eqvGen_iff).mp (eqvGen_mono_into ?_ z w h)
      intro a b hab
      rcases hab with h1 | hm | hm
      · exact Relation.EqvGen.rel a b h1
      · simp at hm
      · simp at hm
  | cons e edges ih =>
    intro uf R inv hE hEq hBase
    obtain ⟨hel, hinv, hrel⟩ := union_spec uf inv e.1 e.2
      (hE e (List.mem_cons_self e edges)).1
      (hE e (List.mem_cons_self e edges)).2
    have hBase2 : ∀ z w, sameRootP (uf.union e.1 e.2).parent z w ↔
        addPair R e.1 e.2 z w := by
      intro z w
      rw [hrel z w]
      exact addPair_congr hBase e.1 e.2 z w
    have hEq2 : Equivalence (addPair R e.1 e.2) := addPair_equivalence hEq e.1 e.2
    have hE2 : ∀ e' ∈ edges, e'.1 ∈ (uf.union e.1 e.2).elems ∧
        e'.2 ∈ (uf.union e.1 e.2).elems := by
      intro e' h
      rw [hel]
      exact hE e' (List.mem_cons_of_mem e h)
    obtain ⟨hel2, hinv2, hrel2⟩ := ih (uf.union e.1 e.2)
      (addPair R e.1 e.2) hinv hE2 hEq2 hBase2
    rw [List.foldl_cons]
    refine ⟨hel2.trans hel, hinv2, ?_⟩
    intro z w
    rw [hrel2 z w]
    exact eqvGen_step_iff hEq e edges z w

lemma init_inv {α : Type} [DecidableEq α] (elements : List α) :
    UFInv (UnionFind.init elements).elems (UnionFind.init elements).parent
      (UnionFind.init elements).rank := by
  constructor
  · intro x _
    rfl
  · intro x hx
    exact hx
  · intro x hne
    exact absurd rfl hne

lemma rootOf_id {α : Type} (z r : α) :
    RootOf (fun x : α => x) z r ↔ z = r := by
  constructor
  · rintro ⟨⟨n, hn⟩, _⟩
    rw [iterP_of_root (show IsRoot (fun x : α => x) z from rfl)] at hn
    exact hn
  · rintro rfl
    exact ⟨reaches_refl _ z, rfl⟩

lemma sameRootP_id {α : Type} (z w : α) :
    sameRootP (fun x : α => x) z w ↔ z = w := by
  constructor
  · rintro ⟨r, h1, h2⟩
    rw [(rootOf_id z r).mp h1, (rootOf_id w r).mp h2]
  · rintro rfl
    exact ⟨z, (rootOf_id z z).mpr rfl, (rootOf_id z z).mpr rfl⟩

lemma eqvGen_eq_or_iff_linkedE {α : Type} (edges : List (α × α))
    (z w : α) :
    Relation.EqvGen (fun a b => a = b ∨
      (a, b) ∈ edges ∨ (b, a) ∈ edges) z w ↔ linkedE edges z w := by
  constructor
  · apply eqvGen_mono_into
    intro a b hab
    rcases hab with rfl | hm | hm
    · exact Relation.EqvGen.refl a
    · exact Relation.EqvGen.rel a b (Or.inl hm)
    · exact Relation.EqvGen.rel a b (Or.inr hm)
  · apply eqvGen_mono_into
    intro a b hab
    exact Relation.EqvGen.rel a b (Or.inr hab)

/-- The Union-Find built by `detect_clusters` computes exactly the
transitive closure of the processed edges: two elements share a root
precisely when they are linked. -/
lemma uf_fold_linked {α : Type} [DecidableEq α] (elements : List α)
    (edges : List (α × α))
    (hE : ∀ e ∈ edges,
      e.1 ∈ dedupFirst elements ∧ e.2 ∈ dedupFirst elements) :
    (edges.foldl (fun u e => u.union e.1 e.2)
      (UnionFind.init elements)).elems = dedupFirst elements ∧
    UFInv (edges.foldl (fun u e => u.union e.1 e.2)
        (UnionFind.init elements)).elems
      (edges.foldl (fun u e => u.union e.1 e.2)
        (UnionFind.init elements)).parent
      (edges.foldl (fun u e => u.union e.1 e.2)
        (UnionFind.init elements)).rank ∧
    (∀ z w, sameRootP (edges.foldl (fun u e => u.union e.1 e.2)
        (UnionFind.init elements)).parent z w ↔ linkedE edges z w) := by
  obtain ⟨h1, h2, h3⟩ := fold_union_spec edges (UnionFind.init elements)
    (fun a b => a = b) (init_inv elements) hE eq_equivalence
    (fun z w => sameRootP_id z w)
  refine ⟨h1, h2, ?_⟩
  intro z w
  rw [h3 z w]
  exact eqvGen_eq_or_iff_linkedE edges z w

/-- The root computed for `x` by an uncompressed full-fuel find. -/
def rootF {α : Type} [DecidableEq α] (uf : UnionFind α) (x : α) : α :=
  (findAux uf.parent uf.elems.length x).1

lemma rootF_rootOf {α : Type} [DecidableEq α] {uf : UnionFind α}
    (inv : UFInv uf.elems uf.parent uf.rank) (x : α) :
    RootOf uf.parent x (rootF uf x) :=
  (findAux_spec inv uf.elems.length x
    (fun _ => budget_le uf.elems uf.rank x)).1

lemma sameRootP_iff_rootF {α : Type} [DecidableEq α] {uf : UnionFind α}
    (inv : UFInv uf.elems uf.parent uf.rank) (z w : α) :
    sameRootP uf.parent z w ↔ rootF uf z = rootF uf w := by
  constructor
  · rintro ⟨r, h1, h2⟩
    rw [rootOf_unique (rootF_rootOf inv z) h1,
      rootOf_unique (rootF_rootOf inv w) h2]
  · intro h
    exact ⟨rootF uf z, rootF_rootOf inv z, h ▸ rootF_rootOf inv w⟩

lemma dedupFirst_concat {α : Type} [DecidableEq α] :
    ∀ (m : List α) (k : α),
      dedupFirst (m ++ [k]) =
        if k ∈ m then dedupFirst m else dedupFirst m ++ [k] := by
  intro m
  induction m with
  | nil => intro k; simp [dedupFirst]
  | cons x m ih =>
    intro k
    show x :: (dedupFirst (m ++ [k])).filter (fun y => decide (y ≠ x)) = _
    rw [ih k]
    by_cases hk : k ∈ m
    · rw [if_pos hk, if_pos (List.mem_cons_of_mem x hk)]
      rfl
    · rw [if_neg hk]
      by_cases hkx : k = x
      · rw [if_pos (by rw [hkx]; exact List.mem_cons_self x m)]
        rw [List.filter_append]
        have : List.filter (fun y => decide (y ≠ x)) [k] = [] := by
          simp [hkx]
        rw [this, List.append_nil]
        rfl
      · rw [if_neg (by
          intro hmem
          rcases List.mem_cons.mp hmem with h | h
          · exact hkx h
          · exact hk h)]
        rw [List.filter_append]
        have : List.filter (fun y => decide (y ≠ x)) [k] = [k] := by
          simp [hkx]
        rw [this]
        rfl

lemma updateAssoc_map_form {α κ : Type} [DecidableEq κ] :
    ∀ (K : List κ), K.Nodup → ∀ (g : κ → List α) (k : κ) (v : α),
      updateAssoc (K.map (fun r => (r, g r))) k v =
        (if k ∈ K then
          K.map (fun r => (r, if r = k then g r ++ [v] else g r))
        else K.map (fun r => (r, g r)) ++ [(k, [v])]) := by
  intro K
  induction K with
  | nil =>
    intro _ g k v
    simp [updateAssoc]
  | cons r0 K ih =>
    intro hN g k v
    rw [List.nodup_cons] at hN
    show updateAssoc ((r0, g r0) :: K.map (fun r => (r, g r))) k v = _
    by_cases h0 : r0 = k
    · show (if r0 = k then (r0, g r0 ++ [v]) :: K.map (fun r => (r, g r))
          else (r0, g r0) :: updateAssoc (K.map (fun r => (r, g r))) k v)
          = _
      rw [if_pos h0, if_pos (by rw [← h0]; exact List.mem_cons_self r0 K)]
      rw [List.map_cons]
      congr 1
      · rw [if_pos h0]
      · apply List.map_congr_left
        intro r hr
        have hrk : r ≠ k := by
          intro hrk
          exact hN.1 (by rw [← h0] at hrk; exact hrk ▸ hr)
        rw [if_neg hrk]
    · show (if r0 = k then (r0, g r0 ++ [v]) :: K.map (fun r => (r, g r))
          else (r0, g r0) :: updateAssoc (K.map (fun r => (r, g r))) k v)
          = _
      rw [if_neg h0, ih hN.2 g k v]
      by_cases hk : k ∈ K
      · rw [if_pos hk, if_pos (List.mem_cons_of_mem r0 hk)]
        rw [List.map_cons, if_neg h0]
      · rw [if_neg hk, if_neg (by
          intro hmem
          rcases List.mem_cons.mp hmem with h | h
          · exact h0 h.symm
          · exact hk h)]
        rw [List.map_cons]
        rfl

/-- Pure grouping of a list by a key function, `defaultdict(list)`
style. -/
def groupPairs {α κ : Type} [DecidableEq κ] (f : α → κ) (l : List α) :
    List (κ × List α) :=
  l.foldl (fun acc e => updateAssoc acc (f e) e) []

lemma groupPairs_eq {α κ : Type} [DecidableEq κ] (f : α → κ) :
    ∀ (l : List α), groupPairs f l =
      (dedupFirst (l.map f)).map
        (fun r => (r, l.filter (fun a => decide (f a = r)))) := by
  intro l
  induction l using List.reverseRecOn with
  | nil => rfl
  | append_singleton l a ih =>
    show (l ++ [a]).foldl (fun acc e => updateAssoc acc (f e) e) [] = _
    rw [List.foldl_append, List.foldl_cons, List.foldl_nil]
    have hgp : l.foldl (fun acc e => updateAssoc acc (f e) e) [] =
        groupPairs f l := rfl
    rw [hgp, ih, updateAssoc_map_form _ (dedupFirst_nodup (l.map f)) _ _ a,
      List.map_append, List.map_singleton, dedupFirst_concat]
    by_cases hmem : f a ∈ l.map f
    · rw [if_pos ((mem_dedupFirst _ _).mpr hmem), if_pos hmem]
      apply List.map_congr_left
      intro r hr
      have hfil : (l ++ [a]).filter (fun b => decide (f b = r)) =
          l.filter (fun b => decide (f b = r)) ++
            (if f a = r then [a] else []) := by
        rw [List.filter_append]
        congr 1
        by_cases hfa : f a = r
        · simp [hfa]
        · simp [hfa]
      rw [hfil]
      by_cases hra : r = f a
      · rw [if_pos hra, if_pos hra.symm]
      · rw [if_neg hra, if_neg (fun h => hra h.symm), List.append_nil]
    · rw [if_neg (fun h => hmem ((mem_dedupFirst _ _).mp h)), if_neg hmem,
        List.map_append]
      congr 1
      · apply List.map_congr_left
        intro r hr
        have hra : f a ≠ r := by
          intro h
          exact hmem (h ▸ (mem_dedupFirst _ _).mp hr)
        rw [List.filter_append]
        have : List.filter (fun b => decide (f b = r)) [a] = [] := by
          simp [hra]
        rw [this, List.append_nil]
      · rw [List.map_singleton]
        have h1 : List.filter (fun b => decide (f b = f a)) l = [] := by
          rw [List.filter_eq_nil_iff]
          intro b hb
          simp only [decide_eq_true_eq]
          intro hfb
          exact hmem (hfb ▸ List.mem_map_of_mem f hb)
        rw [List.filter_append, h1]
        have h2 : List.filter (fun b => decide (f b = f a)) [a] = [a] := by
          simp
        rw [h2, List.nil_append]

/-- The threaded compression inside `get_components` does not change the
grouping: it equals the pure grouping of the elements by their root. -/
lemma get_components_eq_group {α : Type} [DecidableEq α]
    (uf : UnionFind α) (inv : UFInv uf.elems uf.parent uf.rank) :
    uf.get_components = (groupPairs (rootF uf) uf.elems).map Prod.snd := by
  have haux : ∀ (l : List α) (pcur : α → α)
      (acc : List (α × List α)),
      UFInv uf.elems pcur uf.rank →
      (∀ z r, RootOf pcur z r ↔ RootOf uf.parent z r) →
      (l.foldl (fun ac e =>
        ((findAux ac.1 uf.elems.length e).2,
         updateAssoc ac.2 (findAux ac.1 uf.elems.length e).1 e))
        (pcur, acc)).2 =
      l.foldl (fun ac e => updateAssoc ac (rootF uf e) e) acc := by
    intro l
    induction l with
    | nil => intro pcur acc _ _; rfl
    | cons e l ih =>
      intro pcur acc hinv hiff
      rw [List.foldl_cons, List.foldl_cons]
      obtain ⟨hr, hmap⟩ := findAux_spec hinv uf.elems.length e
        (fun _ => budget_le uf.elems uf.rank e)
      have hre : (findAux pcur uf.elems.length e).1 = rootF uf e := by
        have h1 : RootOf uf.parent e (findAux pcur uf.elems.length e).1 :=
          (hiff e _).mp hr
        exact rootOf_unique h1 (rootF_rootOf inv e)
      rw [hre]
      have hinv2 : UFInv uf.elems (findAux pcur uf.elems.length e).2
          uf.rank := mapChar_inv hinv hmap
      have hiff2 : ∀ z r,
          RootOf (findAux pcur uf.elems.length e).2 z r ↔
            RootOf uf.parent z r := by
        intro z r
        exact ((mapChar_rootOf hinv hmap z r).symm).trans (hiff z r)
      exact ih (findAux pcur uf.elems.length e).2
        (updateAssoc acc (rootF uf e) e) hinv2 hiff2
  show ((uf.elems.foldl (fun ac e =>
      ((findAux ac.1 uf.elems.length e).2,
       updateAssoc ac.2 (findAux ac.1 uf.elems.length e).1 e))
      (uf.parent, [])).2).map Prod.snd = _
  rw [haux uf.elems uf.parent [] inv (fun z r => Iff.rfl)]
  rfl

lemma get_components_spec {α : Type} [DecidableEq α] (uf : UnionFind α)
    (inv : UFInv uf.elems uf.parent uf.rank) :
    uf.get_components = (dedupFirst (uf.elems.map (rootF uf))).map
      (fun r => uf.elems.filter (fun a => decide (rootF uf a = r))) := by
  rw [get_components_eq_group uf inv, groupPairs_eq, List.map_map]
  rfl

/-! ### Brute-force connected components agree with the closure -/

lemma linkedE_mono {α : Type} (F G : List (α × α)) :
    ∀ z w, linkedE F z w → linkedE (F ++ G) z w := by
  apply eqvGen_mono_into
  intro a b hab
  rcases hab with hm | hm
  · exact Relation.EqvGen.rel a b (Or.inl (List.mem_append_left G hm))
  · exact Relation.EqvGen.rel a b (Or.inr (List.mem_append_left G hm))

lemma linkedE_nil {α : Type} (z w : α) :
    linkedE ([] : List (α × α)) z w ↔ z = w := by
  constructor
  · intro h
    induction h with
    | rel a b hab => rcases hab with h | h <;> simp at h
    | refl a => rfl
    | symm a b _ ih => exact ih.symm
    | trans a b c _ _ ih1 ih2 => exact ih1.trans ih2
  · rintro rfl
    exact Relation.EqvGen.refl z

lemma linkedE_append_pair {α : Type} (F : List (α × α)) (a b : α) :
    ∀ z w, linkedE (F ++ [(a, b)]) z w ↔ addPair (linkedE F) a b z w := by
  have hEq : Equivalence (linkedE F) := Relation.EqvGen.is_equivalence _
  intro z w
  constructor
  · intro h
    refine ((addPair_equivalence hEq a b).eqvGen_iff).mp
      (eqvGen_mono_into ?_ z w h)
    intro u v huv
    rcases huv with hm | hm
    · rcases List.mem_append.mp hm with hm | hm
      · exact Relation.EqvGen.rel u v
          (Or.inl (Relation.EqvGen.rel u v (Or.inl hm)))
      · rw [List.mem_singleton] at hm
        have hu : u = a := congrArg Prod.fst hm
        have hv : v = b := congrArg Prod.snd hm
        refine Relation.EqvGen.rel u v (Or.inr (Or.inl ⟨?_, ?_⟩))
        · rw [hu]
          exact hEq.refl a
        · rw [hv]
          exact hEq.refl b
    · rcases List.mem_append.mp hm with hm | hm
      · exact Relation.EqvGen.rel u v
          (Or.inl (Relation.EqvGen.rel u v (Or.inr hm)))
      · rw [List.mem_singleton] at hm
        have hv : v = a := congrArg Prod.fst hm
        have hu : u = b := congrArg Prod.snd hm
        refine Relation.EqvGen.rel u v (Or.inr (Or.inr ⟨?_, ?_⟩))
        · rw [hu]
          exact hEq.refl b
        · rw [hv]
          exact hEq.refl a
  · have hab : linkedE (F ++ [(a, b)]) a b :=
      Relation.EqvGen.rel a b
        (Or.inl (List.mem_append_right F (List.mem_singleton.mpr rfl)))
    intro h
    rcases h with h | ⟨h1, h2⟩ | ⟨h1, h2⟩
    · exact linkedE_mono F [(a, b)] z w h
    · exact Relation.EqvGen.trans z a w (linkedE_mono F _ z a h1)
        (Relation.EqvGen.trans a b w hab (linkedE_mono F _ b w h2))
    · exact Relation.EqvGen.trans z b w (linkedE_mono F _ z b h1)
        (Relation.EqvGen.trans b a w (Relation.EqvGen.symm a b hab)
          (linkedE_mono F _ a w h2))

lemma brute_step {α : Type} [DecidableEq α] {V : List α}
    {gs : List (List α)} {F : List (α × α)} (a b : α)
    (ha : a ∈ V) (hb : b ∈ V)
    (hiff : ∀ z w, sameGroup gs z w ↔
      (z ∈ V ∧ w ∈ V ∧ linkedE F z w)) :
    ∀ z w, sameGroup (bruteMergeE gs a b) z w ↔
      (z ∈ V ∧ w ∈ V ∧ linkedE (F ++ [(a, b)]) z w) := by
  have hEq : Equivalence (linkedE F) := Relation.EqvGen.is_equivalence _
  intro z w
  rw [show (z ∈ V ∧ w ∈ V ∧ linkedE (F ++ [(a, b)]) z w) ↔
      (z ∈ V ∧ w ∈ V ∧ addPair (linkedE F) a b z w) by
    rw [linkedE_append_pair F a b z w]]
  constructor
  · rintro ⟨g, hg, hzg, hwg⟩
    unfold bruteMergeE at hg
    rcases List.mem_append.mp hg with hg | hg
    · rw [List.mem_filter] at hg
      have hsg : sameGroup gs z w := ⟨g, hg.1, hzg, hwg⟩
      obtain ⟨hzV, hwV, hlk⟩ := (hiff z w).mp hsg
      exact ⟨hzV, hwV, Or.inl hlk⟩
    · rw [List.mem_singleton] at hg
      subst hg
      obtain ⟨g1, hg1, hzg1⟩ := List.mem_flatten.mp hzg
      obtain ⟨g2, hg2, hwg2⟩ := List.mem_flatten.mp hwg
      rw [List.mem_filter, Bool.or_eq_true, decide_eq_true_eq,
        decide_eq_true_eq] at hg1 hg2
      have hz1 : ∀ c, c ∈ g1 → sameGroup gs z c :=
        fun c hc => ⟨g1, hg1.1, hzg1, hc⟩
      have hw1 : ∀ c, c ∈ g2 → sameGroup gs w c :=
        fun c hc => ⟨g2, hg2.1, hwg2, hc⟩
      rcases hg1.2 with hga | hgb <;> rcases hg2.2 with hga2 | hgb2
      · obtain ⟨hzV, _, hza⟩ := (hiff z a).mp (hz1 a hga)
        obtain ⟨hwV, _, hwa⟩ := (hiff w a).mp (hw1 a hga2)
        exact ⟨hzV, hwV, Or.inl (hEq.trans hza (hEq.symm hwa))⟩
      · obtain ⟨hzV, _, hza⟩ := (hiff z a).mp (hz1 a hga)
        obtain ⟨hwV, _, hwb⟩ := (hiff w b).mp (hw1 b hgb2)
        exact ⟨hzV, hwV, Or.inr (Or.inl ⟨hza, hEq.symm hwb⟩)⟩
      · obtain ⟨hzV, _, hzb⟩ := (hiff z b).mp (hz1 b hgb)
        obtain ⟨hwV, _, hwa⟩ := (hiff w a).mp (hw1 a hga2)
        exact ⟨hzV, hwV, Or.inr (Or.inr ⟨hzb, hEq.symm hwa⟩)⟩
      · obtain ⟨hzV, _, hzb⟩ := (hiff z b).mp (hz1 b hgb)
        obtain ⟨hwV, _, hwb⟩ := (hiff w b).mp (hw1 b hgb2)
        exact ⟨hzV, hwV, Or.inl (hEq.trans hzb (hEq.symm hwb))⟩
  · rintro ⟨hzV, hwV, hap⟩
    have hmerged : ∀ u g1, g1 ∈ gs → u ∈ g1 → (a ∈ g1 ∨ b ∈ g1) →
        u ∈ (gs.filter (fun g => decide (a ∈ g) || decide (b ∈ g))).flatten
        := by
      intro u g1 hg1 hu hab2
      refine List.mem_flatten.mpr ⟨g1, ?_, hu⟩
      rw [List.mem_filter]
      refine ⟨hg1, ?_⟩
      rw [Bool.or_eq_true, decide_eq_true_eq, decide_eq_true_eq]
      exact hab2
    have hmem_merged : (gs.filter (fun g => decide (a ∈ g) ||
        decide (b ∈ g))).flatten ∈ bruteMergeE gs a b := by
      unfold bruteMergeE
      exact List.mem_append_right _ (List.mem_singleton.mpr rfl)
    rcases hap with h | ⟨h1, h2⟩ | ⟨h1, h2⟩
    · obtain ⟨g, hg, hz, hw⟩ := (hiff z w).mpr ⟨hzV, hwV, h⟩
      by_cases htouch : a ∈ g ∨ b ∈ g
      · exact ⟨_, hmem_merged, hmerged z g hg hz htouch,
          hmerged w g hg hw htouch⟩
      · push_neg at htouch
        refine ⟨g, ?_, hz, hw⟩
        unfold bruteMergeE
        refine List.mem_append_left _ ?_
        rw [List.mem_filter]
        refine ⟨hg, ?_⟩
        rw [Bool.and_eq_true]
        constructor
        · simpa using htouch.1
        · simpa using htouch.2
    · obtain ⟨g1, hg1, hz1, ha1⟩ := (hiff z a).mpr ⟨hzV, ha, h1⟩
      obtain ⟨g2, hg2, hw2, hb2⟩ := (hiff w b).mpr ⟨hwV, hb, hEq.symm h2⟩
      exact ⟨_, hmem_merged, hmerged z g1 hg1 hz1 (Or.inl ha1),
        hmerged w g2 hg2 hw2 (Or.inr hb2)⟩
    · obtain ⟨g1, hg1, hz1, hb1⟩ := (hiff z b).mpr ⟨hzV, hb, h1⟩
      obtain ⟨g2, hg2, hw2, ha2⟩ := (hiff w a).mpr ⟨hwV, ha, hEq.symm h2⟩
      exact ⟨_, hmem_merged, hmerged z g1 hg1 hz1 (Or.inr hb1),
        hmerged w g2 hg2 hw2 (Or.inl ha2)⟩

lemma singleton_groups {α : Type} (V : List α) (z w : α) :
    sameGroup (V.map (fun v => [v])) z w ↔ (z ∈ V ∧ z = w) := by
  constructor
  · rintro ⟨g, hg, hz, hw⟩
    obtain ⟨v, hv, rfl⟩ := List.mem_map.mp hg
    rw [List.mem_singleton] at hz hw
    exact ⟨hz ▸ hv, hz.trans hw.symm⟩
  · rintro ⟨hz, rfl⟩
    exact ⟨[z], List.mem_map_of_mem _ hz, List.mem_singleton.mpr rfl,
      List.mem_singleton.mpr rfl⟩

lemma brute_fold {α : Type} [DecidableEq α] (V : List α) :
    ∀ (E : List (α × α)) (gs : List (List α)) (F : List (α × α)),
      (∀ e ∈ E, e.1 ∈ V ∧ e.2 ∈ V) →
      (∀ z w, sameGroup gs z w ↔ (z ∈ V ∧ w ∈ V ∧ linkedE F z w)) →
      ∀ z w,
        sameGroup (E.foldl (fun gs e => bruteMergeE gs e.1 e.2) gs) z w ↔
          (z ∈ V ∧ w ∈ V ∧ linkedE (F ++ E) z w) := by
  intro E
  induction E with
  | nil =>
    intro gs F _ hiff z w
    rw [List.foldl_nil, List.append_nil]
    exact hiff z w
  | cons e E ih =>
    intro gs F hE hiff z w
    rw [List.foldl_cons]
    have hstep := brute_step e.1 e.2 (hE e (List.mem_cons_self e E)).1
      (hE e (List.mem_cons_self e E)).2 hiff
    have := ih (bruteMergeE gs e.1 e.2) (F ++ [(e.1, e.2)])
      (fun e' h => hE e' (List.mem_cons_of_mem e h)) hstep z w
    rw [this, List.append_assoc]
    rw [show [(e.1, e.2)] ++ E = e :: E by rw [Prod.mk.eta]; rfl]

/-- The naive brute-force merge computes exactly the linked relation on
the vertex list. -/
lemma bruteComponents_spec {α : Type} [DecidableEq α] (V : List α)
    (E : List (α × α)) (hE : ∀ e ∈ E, e.1 ∈ V ∧ e.2 ∈ V) :
    ∀ z w, sameGroup (bruteComponents V E) z w ↔
      (z ∈ V ∧ w ∈ V ∧ linkedE E z w) := by
  intro z w
  have hbase : ∀ z w, sameGroup (V.map (fun v => [v])) z w ↔
      (z ∈ V ∧ w ∈ V ∧ linkedE ([] : List (α × α)) z w) := by
    intro z w
    rw [singleton_groups, linkedE_nil]
    constructor
    · rintro ⟨h1, rfl⟩
      exact ⟨h1, h1, rfl⟩
    · rintro ⟨h1, _, rfl⟩
      exact ⟨h1, rfl⟩
  have := brute_fold V E (V.map (fun v => [v])) [] hE hbase z w
  rw [List.nil_append] at this
  exact this

/-! ### `detect_clusters` characterization -/

/-- The `relevant_contacts` filter of `detect_clusters`. -/
def relevantContacts (episodes : List InfectionEpisode)
    (contacts : List ContactEdge) (infection_type : String) :
    List ContactEdge :=
  contacts.filter (fun c =>
    episodes.any (fun ep =>
      decide (ep.episode_id = c.episode_a ∧
              ep.infection_type = infection_type)) &&
    episodes.any (fun ep =>
      decide (ep.episode_id = c.episode_b ∧
              ep.infection_type = infection_type)))

/-- The endpoint pairs of the relevant contacts: the edge set of the
pathogen-restricted contact graph. -/
def relevantEdges (episodes : List InfectionEpisode)
    (contacts : List ContactEdge) (infection_type : String) :
    List (String × String) :=
  (relevantContacts episodes contacts infection_type).map
    (fun c => (c.episode_a, c.episode_b))

/-- The Union-Find state after `detect_clusters` has processed every
relevant contact. -/
def clusterUF (episodes : List InfectionEpisode)
    (contacts : List ContactEdge) (infection_type : String) :
    UnionFind String :=
  (relevantContacts episodes contacts infection_type).foldl
    (fun uf c => uf.union c.episode_a c.episode_b)
    (UnionFind.init (episodes.map (fun ep => ep.episode_id)))

lemma foldl_ite_append {β γ : Type} (pred : β → Prop) [DecidablePred pred]
    (g : β → γ) :
    ∀ (l : List β) (acc : List γ),
      l.foldl (fun cl b => if pred b then cl ++ [g b] else cl) acc =
        acc ++ (l.filter (fun b => decide (pred b))).map g := by
  intro l
  induction l with
  | nil => intro acc; simp
  | cons b l ih =>
    intro acc
    rw [List.foldl_cons]
    by_cases hb : pred b
    · rw [if_pos hb, ih, List.filter_cons_of_pos (by simpa using hb),
        List.map_cons]
      rw [List.append_cons, List.append_assoc]
      simp
    · rw [if_neg hb, ih, List.filter_cons_of_neg (by simpa using hb)]

/-- `detect_clusters`, written with the named intermediate stages: one
cluster per connected component of at least two episode ids. -/
lemma detect_clusters_eq (episodes : List InfectionEpisode)
    (contacts : List ContactEdge) (ty : String) :
    detect_clusters episodes contacts ty =
      if episodes.length < 2 then []
      else
        ((clusterUF episodes contacts ty).get_components.filter
          (fun comp => decide (2 ≤ comp.length))).map
          (fun comp => create_cluster ty (comp.filterMap (epLookup episodes))
            ((relevantContacts episodes contacts ty).filter (fun c =>
              decide (c.episode_a ∈ comp) && decide (c.episode_b ∈ comp))))
      := by
  unfold detect_clusters
  by_cases h2 : episodes.length < 2
  · rw [if_pos h2, if_pos h2]
  · rw [if_neg h2, if_neg h2]
    rw [foldl_ite_append (fun comp : List String => 2 ≤ comp.length)]
    rw [List.nil_append]
    rfl

/-- Both endpoints of every relevant edge are episode ids of the list. -/
lemma relevantEdges_mem (episodes : List InfectionEpisode)
    (contacts : List ContactEdge) (ty : String) :
    ∀ e ∈ relevantEdges episodes contacts ty,
      e.1 ∈ episodes.map (fun ep => ep.episode_id) ∧
      e.2 ∈ episodes.map (fun ep => ep.episode_id) := by
  intro e he
  obtain ⟨c, hc, rfl⟩ := List.mem_map.mp he
  rw [relevantContacts, List.mem_filter, Bool.and_eq_true,
    List.any_eq_true, List.any_eq_true] at hc
  obtain ⟨_, ⟨ep1, hep1, hd1⟩, ⟨ep2, hep2, hd2⟩⟩ := hc
  rw [decide_eq_true_eq] at hd1 hd2
  constructor
  · rw [show (c.episode_a, c.episode_b).1 = c.episode_a from rfl,
      ← hd1.1]
    exact List.mem_map_of_mem _ hep1
  · rw [show (c.episode_a, c.episode_b).2 = c.episode_b from rfl,
      ← hd2.1]
    exact List.mem_map_of_mem _ hep2

/-- The structural facts about the Union-Find of `detect_clusters`. -/
lemma clusterUF_facts (episodes : List InfectionEpisode)
    (contacts : List ContactEdge) (ty : String)
    (hN : (episodes.map (fun ep => ep.episode_id)).Nodup) :
    (clusterUF episodes contacts ty).elems =
      episodes.map (fun ep => ep.episode_id) ∧
    UFInv (clusterUF episodes contacts ty).elems
      (clusterUF episodes contacts ty).parent
      (clusterUF episodes contacts ty).rank ∧
    (∀ z w, sameRootP (clusterUF episodes contacts ty).parent z w ↔
      linkedE (relevantEdges episodes contacts ty) z w) := by
  have hEmem := relevantEdges_mem episodes contacts ty
  have hded : dedupFirst (episodes.map (fun ep => ep.episode_id)) =
      episodes.map (fun ep => ep.episode_id) :=
    dedupFirst_eq_self _ hN
  have hfold := uf_fold_linked (episodes.map (fun ep => ep.episode_id))
    (relevantEdges episodes contacts ty)
    (by rw [hded]; exact hEmem)
  have hrw : (relevantEdges episodes contacts ty).foldl
      (fun u e => u.union e.1 e.2)
      (UnionFind.init (episodes.map (fun ep => ep.episode_id))) =
      clusterUF episodes contacts ty := by
    unfold relevantEdges clusterUF
    rw [List.foldl_map]
  rw [hrw, hded] at hfold
  exact hfold

/-- Each component of the cluster Union-Find is a duplicate-free set of
episode ids, closed and complete for the transitive contact relation. -/
lemma clusterUF_components (episodes : List InfectionEpisode)
    (contacts : List ContactEdge) (ty : String)
    (hN : (episodes.map (fun ep => ep.episode_id)).Nodup) :
    ∀ comp ∈ (clusterUF episodes contacts ty).get_components,
      comp.Nodup ∧
      (∀ i ∈ comp, i ∈ episodes.map (fun ep => ep.episode_id)) ∧
      (∀ i ∈ comp, ∀ j ∈ comp,
        linkedE (relevantEdges episodes contacts ty) i j) ∧
      (∀ i ∈ comp, ∀ j ∈ episodes.map (fun ep => ep.episode_id),
        linkedE (relevantEdges episodes contacts ty) i j → j ∈ comp) := by
  obtain ⟨helems, inv, hlink⟩ := clusterUF_facts episodes contacts ty hN
  intro comp hcomp
  rw [get_components_spec _ inv] at hcomp
  obtain ⟨r, _, rfl⟩ := List.mem_map.mp hcomp
  have hmem : ∀ i, i ∈ (clusterUF episodes contacts ty).elems.filter
      (fun a => decide (rootF (clusterUF episodes contacts ty) a = r)) ↔
      (i ∈ episodes.map (fun ep => ep.episode_id) ∧
       rootF (clusterUF episodes contacts ty) i = r) := by
    intro i
    rw [List.mem_filter, decide_eq_true_eq, helems]
  refine ⟨?_, ?_, ?_, ?_⟩
  · exact List.Nodup.filter _ (helems ▸ hN)
  · intro i hi; exact ((hmem i).mp hi).1
  · intro i hi j hj
    have h1 := (hmem i).mp hi
    have h2 := (hmem j).mp hj
    exact (hlink i j).mp ((sameRootP_iff_rootF inv i j).mpr
      (h1.2.trans h2.2.symm))
  · intro i hi j hj hl
    have h1 := (hmem i).mp hi
    have hsr := (sameRootP_iff_rootF inv i j).mp ((hlink i j).mpr hl)
    exact (hmem j).mpr ⟨hj, hsr ▸ h1.2⟩

/-- Every episode id appears in some component. -/
lemma clusterUF_cover (episodes : List InfectionEpisode)
    (contacts : List ContactEdge) (ty : String)
    (hN : (episodes.map (fun ep => ep.episode_id)).Nodup) :
    ∀ i ∈ episodes.map (fun ep => ep.episode_id),
      ∃ comp ∈ (clusterUF episodes contacts ty).get_components, i ∈ comp := by
  obtain ⟨helems, inv, _⟩ := clusterUF_facts episodes contacts ty hN
  intro i hi
  rw [get_components_spec _ inv]
  refine ⟨(clusterUF episodes contacts ty).elems.filter
    (fun a => decide (rootF (clusterUF episodes contacts ty) a =
      rootF (clusterUF episodes contacts ty) i)), ?_, ?_⟩
  · refine List.mem_map_of_mem _ ?_
    rw [mem_dedupFirst]
    exact List.mem_map_of_mem _ (helems ▸ hi)
  · rw [List.mem_filter, decide_eq_true_eq]
    exact ⟨helems ▸ hi, rfl⟩

/-- Two components sharing an id are the same component. -/
lemma clusterUF_disjoint (episodes : List InfectionEpisode)
    (contacts : List ContactEdge) (ty : String)
    (hN : (episodes.map (fun ep => ep.episode_id)).Nodup) :
    ∀ comp1 ∈ (clusterUF episodes contacts ty).get_components,
    ∀ comp2 ∈ (clusterUF episodes contacts ty).get_components,
    ∀ i, i ∈ comp1 → i ∈ comp2 → comp1 = comp2 := by
  obtain ⟨_, inv, _⟩ := clusterUF_facts episodes contacts ty hN
  intro comp1 hc1 comp2 hc2 i hi1 hi2
  rw [get_components_spec _ inv] at hc1 hc2
  obtain ⟨r1, _, rfl⟩ := List.mem_map.mp hc1
  obtain ⟨r2, _, rfl⟩ := List.mem_map.mp hc2
  rw [List.mem_filter, decide_eq_true_eq] at hi1 hi2
  rw [← hi1.2, hi2.2]

lemma create_cluster_episodes (ty : String) (eps : List InfectionEpisode)
    (cts : List ContactEdge) : (create_cluster ty eps cts).episodes = eps :=
  rfl

lemma create_cluster_contacts (ty : String) (eps : List InfectionEpisode)
    (cts : List ContactEdge) :
    (create_cluster ty eps cts).contact_events = cts := rfl

lemma create_cluster_type (ty : String) (eps : List InfectionEpisode)
    (cts : List ContactEdge) :
    (create_cluster ty eps cts).infection_type = ty := rfl

lemma create_cluster_patients (ty : String) (eps : List InfectionEpisode)
    (cts : List ContactEdge) :
    (create_cluster ty eps cts).unique_patients =
      eps.foldl (fun s ep => setAdd s ep.patient_id) [] := rfl

lemma create_cluster_locations (ty : String) (eps : List InfectionEpisode)
    (cts : List ContactEdge) :
    (create_cluster ty eps cts).locations =
      cts.foldl (fun s c => setAdd s c.location) [] := rfl

/-- On a component whose ids all come from an id-distinct episode list,
the `episodes_dict` lookup recovers exactly the component. -/
lemma filterMap_epLookup_map (episodes : List InfectionEpisode)
    (hN : (episodes.map (fun ep => ep.episode_id)).Nodup) :
    ∀ (comp : List String),
      (∀ i ∈ comp, i ∈ episodes.map (fun ep => ep.episode_id)) →
      (comp.filterMap (epLookup episodes)).map (fun ep => ep.episode_id) =
        comp := by
  intro comp
  induction comp with
  | nil => intro _; rfl
  | cons i rest ih =>
    intro h
    have hi := h i (List.mem_cons_self i rest)
    obtain ⟨ep, hep, hid⟩ := List.mem_map.mp hi
    have hlook : epLookup episodes i = some ep := by
      rw [← hid]; exact epLookup_nodup episodes hN ep hep
    rw [List.filterMap_cons, hlook, List.map_cons, hid,
      ih (fun j hj => h j (List.mem_cons_of_mem i hj))]

/-- Membership in the looked-up episode list of a component. -/
lemma mem_filterMap_epLookup (episodes : List InfectionEpisode)
    (hN : (episodes.map (fun ep => ep.episode_id)).Nodup)
    (comp : List String) (ep : InfectionEpisode) :
    ep ∈ comp.filterMap (epLookup episodes) ↔
      (ep ∈ episodes ∧ ep.episode_id ∈ comp) := by
  constructor
  · intro h
    obtain ⟨i, hi, hlook⟩ := List.mem_filterMap.mp h
    have hmem : ep ∈ episodes.reverse := List.mem_of_find?_eq_some hlook
    have hpred := List.find?_some hlook
    rw [decide_eq_true_eq] at hpred
    exact ⟨List.mem_reverse.mp hmem, hpred ▸ hi⟩
  · rintro ⟨hmem, hid⟩
    exact List.mem_filterMap.mpr
      ⟨ep.episode_id, hid, epLookup_nodup episodes hN ep hmem⟩

lemma two_le_length_of_mem_ne {α : Type} {l : List α} {a b : α}
    (ha : a ∈ l) (hb : b ∈ l) (hne : a ≠ b) : 2 ≤ l.length := by
  match l with
  | [] => exact absurd ha (List.not_mem_nil a)
  | [x] =>
    rw [List.mem_singleton] at ha hb
    exact absurd (ha.trans hb.symm) hne
  | x :: y :: t => simp only [List.length_cons]; omega

lemma exists_two_of_nodup {α : Type} {l : List α} (h2 : 2 ≤ l.length)
    (hnd : l.Nodup) : ∃ a ∈ l, ∃ b ∈ l, a ≠ b := by
  match l with
  | [] => simp at h2
  | [x] => simp at h2
  | x :: y :: t =>
    refine ⟨x, List.mem_cons_self x (y :: t),
      y, List.mem_cons_of_mem x (List.mem_cons_self y t), ?_⟩
    rw [List.nodup_cons] at hnd
    intro he
    exact hnd.1 (he ▸ List.mem_cons_self y t)

lemma setAdd_ne_nil (s : List String) (a : String) : setAdd s a ≠ [] := by
  unfold setAdd
  by_cases h : a ∈ s
  · rw [if_pos h]
    intro he
    rw [he] at h
    exact List.not_mem_nil a h
  · rw [if_neg h]
    exact List.append_ne_nil_of_right_ne_nil s (by simp)

lemma setAdd_length (s : List String) (a : String) :
    (setAdd s a).length ≤ s.length + 1 := by
  unfold setAdd
  by_cases h : a ∈ s
  · rw [if_pos h]; omega
  · rw [if_neg h, List.length_append]; simp

lemma foldl_setAdd_ne_nil {β : Type} (f : β → String) :
    ∀ (l : List β) (acc : List String), acc ≠ [] →
      l.foldl (fun s x => setAdd s (f x)) acc ≠ [] := by
  intro l
  induction l with
  | nil => intro acc h; exact h
  | cons b l ih =>
    intro acc _
    rw [List.foldl_cons]
    exact ih _ (setAdd_ne_nil acc (f b))

lemma foldl_setAdd_length {β : Type} (f : β → String) :
    ∀ (l : List β) (acc : List String),
      (l.foldl (fun s x => setAdd s (f x)) acc).length ≤
        acc.length + l.length := by
  intro l
  induction l with
  | nil => intro acc; simp
  | cons b l ih =>
    intro acc
    rw [List.foldl_cons, List.length_cons]
    have h1 := ih (setAdd acc (f b))
    have h2 := setAdd_length acc (f b)
    omega

/-- Any linked pair is witnessed by an actual edge of the list, both of
whose endpoints are linked to the pair. -/
lemma linked_edge_extract {α : Type} (E : List (α × α)) :
    ∀ z w, linkedE E z w →
      z = w ∨ ∃ e ∈ E, linkedE E z e.1 ∧ linkedE E z e.2 := by
  intro z w h
  induction h with
  | rel a b hab =>
    rcases hab with hm | hm
    · exact Or.inr ⟨(a, b), hm, Relation.EqvGen.refl a,
        Relation.EqvGen.rel a b (Or.inl hm)⟩
    · exact Or.inr ⟨(b, a), hm, Relation.EqvGen.rel a b (Or.inr hm),
        Relation.EqvGen.refl a⟩
  | refl a => exact Or.inl rfl
  | symm a b hab ih =>
    rcases ih with rfl | ⟨e, he, h1, h2⟩
    · exact Or.inl rfl
    · exact Or.inr ⟨e, he,
        Relation.EqvGen.trans _ _ _ (Relation.EqvGen.symm _ _ hab) h1,
        Relation.EqvGen.trans _ _ _ (Relation.EqvGen.symm _ _ hab) h2⟩
  | trans a b c hab hbc ih1 ih2 =>
    rcases ih1 with rfl | ⟨e, he, h1, h2⟩
    · exact ih2
    · exact Or.inr ⟨e, he, h1, h2⟩

/-- A cluster of `detect_clusters` is exactly the materialization of a
component of at least two ids. -/
lemma mem_detect_clusters (episodes : List InfectionEpisode)
    (contacts : List ContactEdge) (ty : String) :
    ∀ c, c ∈ detect_clusters episodes contacts ty ↔
      (¬ episodes.length < 2 ∧
       ∃ comp ∈ (clusterUF episodes contacts ty).get_components,
         2 ≤ comp.length ∧
         c = create_cluster ty (comp.filterMap (epLookup episodes))
           ((relevantContacts episodes contacts ty).filter (fun ct =>
             decide (ct.episode_a ∈ comp) &&
             decide (ct.episode_b ∈ comp)))) := by
  intro c
  rw [detect_clusters_eq]
  by_cases h2 : episodes.length < 2
  · rw [if_pos h2]
    simp [h2]
  · rw [if_neg h2]
    simp only [List.mem_map, List.mem_filter, decide_eq_true_eq, h2,
      not_false_iff, true_and]
    constructor
    · rintro ⟨comp, ⟨hc, hlen⟩, rfl⟩
      exact ⟨comp, hc, hlen, rfl⟩
    · rintro ⟨comp, hc, hlen, rfl⟩
      exact ⟨comp, ⟨hc, hlen⟩, rfl⟩
/-- C1: for every pathogen and contact-edge list, the clusters returned by
`detect_clusters` are exactly the connected components (transitive closure
`linkedE`) of the graph on the pathogen's episode ids whose edges are the
contacts with both endpoints among those episodes; each cluster is a
duplicate-free, linked and maximal set of at least two member episodes,
every linked pair of distinct episodes lands in a common cluster, and on
the episode ids the Union-Find reaches exactly the same relation as the
brute-force merge computation `bruteComponents`. -/
theorem C1_cluster_partition (episodes : List InfectionEpisode)
    (contacts : List ContactEdge) (ty : String)
    (hN : (episodes.map (fun ep => ep.episode_id)).Nodup)
    (_hTy : ∀ ep ∈ episodes, ep.infection_type = ty) :
    (∀ c ∈ detect_clusters episodes contacts ty,
       2 ≤ c.episodes.length ∧
       (c.episodes.map (fun ep => ep.episode_id)).Nodup ∧
       (∀ ep ∈ c.episodes, ep ∈ episodes) ∧
       (∀ ep1 ∈ c.episodes, ∀ ep2 ∈ c.episodes,
          linkedE (relevantEdges episodes contacts ty)
            ep1.episode_id ep2.episode_id) ∧
       (∀ ep1 ∈ c.episodes, ∀ ep' ∈ episodes,
          linkedE (relevantEdges episodes contacts ty)
            ep1.episode_id ep'.episode_id → ep' ∈ c.episodes)) ∧
    (∀ ep1 ∈ episodes, ∀ ep2 ∈ episodes,
       ep1.episode_id ≠ ep2.episode_id →
       linkedE (relevantEdges episodes contacts ty)
         ep1.episode_id ep2.episode_id →
       ∃ c ∈ detect_clusters episodes contacts ty,
         ep1 ∈ c.episodes ∧ ep2 ∈ c.episodes) ∧
    (∀ z ∈ episodes.map (fun ep => ep.episode_id),
     ∀ w ∈ episodes.map (fun ep => ep.episode_id),
       (sameRootP (clusterUF episodes contacts ty).parent z w ↔
        sameGroup (bruteComponents (episodes.map (fun ep => ep.episode_id))
          (relevantEdges episodes contacts ty)) z w)) := by
  have hcomps := clusterUF_components episodes contacts ty hN
  refine ⟨?_, ?_, ?_⟩
  · intro c hc
    obtain ⟨_, comp, hcomp, hlen, rfl⟩ :=
      (mem_detect_clusters episodes contacts ty c).mp hc
    obtain ⟨hnod, hsub, hsame, hmax⟩ := hcomps comp hcomp
    have hmap := filterMap_epLookup_map episodes hN comp hsub
    rw [create_cluster_episodes]
    have hlenF : (comp.filterMap (epLookup episodes)).length = comp.length := by
      have hlm := congrArg List.length hmap
      rw [List.length_map] at hlm
      exact hlm
    refine ⟨by rw [hlenF]; exact hlen, by rw [hmap]; exact hnod, ?_, ?_, ?_⟩
    · intro ep hep
      exact ((mem_filterMap_epLookup episodes hN comp ep).mp hep).1
    · intro ep1 hep1 ep2 hep2
      have h1 := ((mem_filterMap_epLookup episodes hN comp ep1).mp hep1).2
      have h2 := ((mem_filterMap_epLookup episodes hN comp ep2).mp hep2).2
      exact hsame _ h1 _ h2
    · intro ep1 hep1 ep' hep' hl
      have h1 := ((mem_filterMap_epLookup episodes hN comp ep1).mp hep1).2
      have h2 := hmax _ h1 _ (List.mem_map_of_mem _ hep') hl
      exact (mem_filterMap_epLookup episodes hN comp ep').mpr ⟨hep', h2⟩
  · intro ep1 hep1 ep2 hep2 hne hl
    obtain ⟨comp, hcomp, hin1⟩ := clusterUF_cover episodes contacts ty hN
      ep1.episode_id (List.mem_map_of_mem _ hep1)
    obtain ⟨hnod, hsub, hsame, hmax⟩ := hcomps comp hcomp
    have hin2 : ep2.episode_id ∈ comp :=
      hmax _ hin1 _ (List.mem_map_of_mem _ hep2) hl
    have hlen : 2 ≤ comp.length := two_le_length_of_mem_ne hin1 hin2 hne
    refine ⟨create_cluster ty (comp.filterMap (epLookup episodes))
      ((relevantContacts episodes contacts ty).filter (fun ct =>
        decide (ct.episode_a ∈ comp) && decide (ct.episode_b ∈ comp))),
      ?_, ?_, ?_⟩
    · refine (mem_detect_clusters episodes contacts ty _).mpr
        ⟨?_, comp, hcomp, hlen, rfl⟩
      have := two_le_length_of_mem_ne hep1 hep2
        (fun he => hne (congrArg InfectionEpisode.episode_id he))
      omega
    · rw [create_cluster_episodes]
      exact (mem_filterMap_epLookup episodes hN comp ep1).mpr ⟨hep1, hin1⟩
    · rw [create_cluster_episodes]
      exact (mem_filterMap_epLookup episodes hN comp ep2).mpr ⟨hep2, hin2⟩
  · intro z hz w hw
    obtain ⟨_, _, hlink⟩ := clusterUF_facts episodes contacts ty hN
    rw [hlink z w,
      bruteComponents_spec _ _ (relevantEdges_mem episodes contacts ty) z w]
    constructor
    · intro h
      exact ⟨hz, hw, h⟩
    · intro h
      exact h.2.2
lemma foldl_setAdd_nonempty {β : Type} (f : β → String) (l : List β)
    (hl : l ≠ []) : l.foldl (fun s x => setAdd s (f x)) [] ≠ [] := by
  obtain ⟨x, rest, rfl⟩ := List.exists_cons_of_ne_nil hl
  rw [List.foldl_cons]
  exact foldl_setAdd_ne_nil f rest (setAdd [] (f x)) (setAdd_ne_nil [] (f x))

/-- C6: every cluster returned by `detect_clusters` has at least two
member episodes, its patient count satisfies
`1 ≤ patient_count ≤ episode_count`, and every member episode's pathogen
equals the cluster's `infection_type`. -/
theorem C6_cluster_invariants (episodes : List InfectionEpisode)
    (contacts : List ContactEdge) (ty : String)
    (hN : (episodes.map (fun ep => ep.episode_id)).Nodup)
    (hTy : ∀ ep ∈ episodes, ep.infection_type = ty) :
    ∀ c ∈ detect_clusters episodes contacts ty,
      2 ≤ c.episode_count ∧
      1 ≤ c.patient_count ∧
      c.patient_count ≤ c.episode_count ∧
      ∀ ep ∈ c.episodes, ep.infection_type = c.infection_type := by
  intro c hc
  obtain ⟨_, comp, hcomp, hlen, rfl⟩ :=
    (mem_detect_clusters episodes contacts ty c).mp hc
  obtain ⟨_, hsub, _, _⟩ :=
    clusterUF_components episodes contacts ty hN comp hcomp
  have hmap := filterMap_epLookup_map episodes hN comp hsub
  have hlenF : (comp.filterMap (epLookup episodes)).length = comp.length := by
    have hlm := congrArg List.length hmap
    rw [List.length_map] at hlm
    exact hlm
  have h2 : 2 ≤ (comp.filterMap (epLookup episodes)).length := by
    rw [hlenF]; exact hlen
  have hne : comp.filterMap (epLookup episodes) ≠ [] := by
    intro he
    rw [he] at h2
    simp at h2
  refine ⟨?_, ?_, ?_, ?_⟩
  · simp only [EpisodeCluster.episode_count, create_cluster_episodes]
    exact h2
  · simp only [EpisodeCluster.patient_count, create_cluster_patients]
    refine Nat.one_le_iff_ne_zero.mpr ?_
    intro hz
    exact foldl_setAdd_nonempty (fun ep => ep.patient_id) _ hne
      (List.length_eq_zero.mp hz)
  · simp only [EpisodeCluster.patient_count, EpisodeCluster.episode_count,
      create_cluster_patients, create_cluster_episodes]
    have hle := foldl_setAdd_length (fun ep => ep.patient_id)
      (comp.filterMap (epLookup episodes)) []
    simpa using hle
  · intro ep hep
    rw [create_cluster_episodes] at hep
    rw [create_cluster_type]
    exact hTy ep ((mem_filterMap_epLookup episodes hN comp ep).mp hep).1

/-- C9: every cluster materialized by `detect_clusters` keeps at least one
contact edge whose both endpoints are member episodes, hence has a
non-empty location set and a strictly positive risk score. -/
theorem C9_cluster_edge (episodes : List InfectionEpisode)
    (contacts : List ContactEdge) (ty : String)
    (hN : (episodes.map (fun ep => ep.episode_id)).Nodup) :
    ∀ c ∈ detect_clusters episodes contacts ty,
      (∃ e ∈ c.contact_events,
        (∃ ep ∈ c.episodes, ep.episode_id = e.episode_a) ∧
        (∃ ep ∈ c.episodes, ep.episode_id = e.episode_b)) ∧
      c.locations ≠ [] ∧
      0 < c.risk_score := by
  intro c hc
  obtain ⟨_, comp, hcomp, hlen, rfl⟩ :=
    (mem_detect_clusters episodes contacts ty c).mp hc
  obtain ⟨hnod, hsub, hsame, hmax⟩ :=
    clusterUF_components episodes contacts ty hN comp hcomp
  obtain ⟨i, hi, j, hj, hij⟩ := exists_two_of_nodup hlen hnod
  rcases linked_edge_extract _ i j (hsame i hi j hj) with heq | ⟨e, he, h1, h2⟩
  · exact absurd heq hij
  have hmem := relevantEdges_mem episodes contacts ty e he
  have he1 : e.1 ∈ comp := hmax i hi e.1 hmem.1 h1
  have he2 : e.2 ∈ comp := hmax i hi e.2 hmem.2 h2
  obtain ⟨ct, hct, hcte⟩ := List.mem_map.mp he
  rw [← hcte] at he1 he2 hmem
  have hctf : ct ∈ (relevantContacts episodes contacts ty).filter (fun ct =>
      decide (ct.episode_a ∈ comp) && decide (ct.episode_b ∈ comp)) := by
    rw [List.mem_filter, Bool.and_eq_true, decide_eq_true_eq,
      decide_eq_true_eq]
    exact ⟨hct, he1, he2⟩
  have hne : (relevantContacts episodes contacts ty).filter (fun ct =>
      decide (ct.episode_a ∈ comp) && decide (ct.episode_b ∈ comp)) ≠ [] := by
    intro hnil
    rw [hnil] at hctf
    exact List.not_mem_nil ct hctf
  refine ⟨⟨ct, ?_, ?_, ?_⟩, ?_, ?_⟩
  · rw [create_cluster_contacts]
    exact hctf
  · obtain ⟨ep, hep, hid⟩ := List.mem_map.mp hmem.1
    refine ⟨ep, ?_, hid⟩
    rw [create_cluster_episodes]
    exact (mem_filterMap_epLookup episodes hN comp ep).mpr ⟨hep, hid ▸ he1⟩
  · obtain ⟨ep, hep, hid⟩ := List.mem_map.mp hmem.2
    refine ⟨ep, ?_, hid⟩
    rw [create_cluster_episodes]
    exact (mem_filterMap_epLookup episodes hN comp ep).mpr ⟨hep, hid ▸ he2⟩
  · rw [create_cluster_locations]
    exact foldl_setAdd_nonempty (fun ct => ct.location) _ hne
  · simp only [EpisodeCluster.risk_score, create_cluster_contacts]
    refine div_pos ?_ (lt_of_lt_of_le one_pos (le_max_left _ _))
    have hpos : 0 < ((relevantContacts episodes contacts ty).filter (fun ct =>
        decide (ct.episode_a ∈ comp) &&
        decide (ct.episode_b ∈ comp))).length := List.length_pos.mpr hne
    exact_mod_cast hpos

/-- The C4 scenario as a cluster-detection input: two same-pathogen
episodes and the single contact edge between them. -/
def episodesC : List InfectionEpisode := [ep4a, ep4b]

def contactsC : List ContactEdge :=
  [{ episode_a := "P1_CRE_EP001", episode_b := "P2_CRE_EP001",
     contact_date := 102, location := "WardA" }]

/-- Witness for C1 on the two-episode scenario. -/
theorem C1_cluster_partition_witness :
    ((episodesC.map (fun ep => ep.episode_id)).Nodup) ∧
    (∀ ep ∈ episodesC, ep.infection_type = "CRE") ∧
    (∀ z ∈ episodesC.map (fun ep => ep.episode_id),
     ∀ w ∈ episodesC.map (fun ep => ep.episode_id),
       (sameRootP (clusterUF episodesC contactsC "CRE").parent z w ↔
        sameGroup (bruteComponents (episodesC.map (fun ep => ep.episode_id))
          (relevantEdges episodesC contactsC "CRE")) z w)) :=
  ⟨by decide, by decide,
   (C1_cluster_partition episodesC contactsC "CRE"
     (by decide) (by decide)).2.2⟩

/-- Witness for C6 on the two-episode scenario. -/
theorem C6_cluster_invariants_witness :
    (∀ ep ∈ episodesC, ep.infection_type = "CRE") ∧
    ∀ c ∈ detect_clusters episodesC contactsC "CRE",
      2 ≤ c.episode_count ∧
      1 ≤ c.patient_count ∧
      c.patient_count ≤ c.episode_count ∧
      ∀ ep ∈ c.episodes, ep.infection_type = c.infection_type :=
  ⟨by decide,
   C6_cluster_invariants episodesC contactsC "CRE" (by decide) (by decide)⟩

/-- Witness for C9 on the two-episode scenario. -/
theorem C9_cluster_edge_witness :
    ((episodesC.map (fun ep => ep.episode_id)).Nodup) ∧
    ∀ c ∈ detect_clusters episodesC contactsC "CRE",
      (∃ e ∈ c.contact_events,
        (∃ ep ∈ c.episodes, ep.episode_id = e.episode_a) ∧
        (∃ ep ∈ c.episodes, ep.episode_id = e.episode_b)) ∧
      c.locations ≠ [] ∧
      0 < c.risk_score :=
  ⟨by decide, C9_cluster_edge episodesC contactsC "CRE" (by decide)⟩

end ICD
